import Mathlib

/-!
Verification of the implicit-geometry kernel (`crates/kernel`): the expression
algebra, the value / gradient / interval interpreters, the topology-program
codec and the Morse critical-point solver, shallowly embedded in Lean.

Modelling conventions, used consistently below:

* `f64` is modelled as `ℝ`.  IEEE special values do not exist in `ℝ`; the
  interval interpreter, which manufactures `f64::INFINITY` explicitly, is
  modelled with `EReal` endpoints, and the handful of corner operations that
  produce NaN in `f64` (`0 * ∞`, `∞ / ∞`) follow `EReal`'s conventions.
* The Rust `match` statements in `eval`, `eval_ad` and `eval_interval` have no
  arm for `Expr::RotateZ` (the match is not exhaustive).  The interpreters are
  therefore modelled as `Option`-valued functions returning `none` on any
  expression containing `RotateZ`, and `none` marks "no defining equation in
  the source".
* The decoder indexes `node.inputs[0]` without a bounds check in the
  `neg`/`sin`/`cos`/`exp` arms; an out-of-bounds index is a Rust panic.  The
  decoder is modelled as `Option (Except String _)`, with the outer `none`
  standing for a panic and `Except.error` for the `Err` return value.
* Encoder node ids are the strings `n0`, `n1`, …; since `k ↦ "n" ++ toString k`
  is injective the ids are modelled by the minted counter value `k : ℕ`.
* `serde_json` parameter blobs only ever carry numeric values in this codec, so
  a parameter map is modelled as an association list `List (String × ℝ)`.
-/

set_option maxHeartbeats 1000000

namespace Kernel

/-- Expression algebra, from `src/crates/kernel/src/expr.rs` (`enum Expr`).
Constants and operator parameters are `f64`, modelled as `ℝ`. -/
inductive Expr where
  | Const (c : ℝ)
  | X
  | Y
  | Z
  | Add (a b : Expr)
  | Sub (a b : Expr)
  | Mul (a b : Expr)
  | Div (a b : Expr)
  | Neg (a : Expr)
  | Sin (a : Expr)
  | Cos (a : Expr)
  | Exp (a : Expr)
  | Min (a b : Expr)
  | Max (a b : Expr)
  | SMin (a b : Expr) (k : ℝ)
  | SMax (a b : Expr) (k : ℝ)
  | Translate (expr : Expr) (dx dy dz : ℝ)
  | RotateZ (expr : Expr) (deg : ℝ)

/-- Sample point, from `src/crates/kernel/src/eval.rs` (`struct Point`). -/
structure Point where
  x : ℝ
  y : ℝ
  z : ℝ

/-- Rust `f64::clamp(0.0, 1.0)`: below the lower bound gives the bound, above
the upper bound gives the bound, otherwise the value itself. -/
noncomputable def clamp01 (t : ℝ) : ℝ :=
  if t < 0 then 0 else if 1 < t then 1 else t

/-- Value interpreter, from `src/crates/kernel/src/eval.rs` (`fn eval`).
The source match has no `RotateZ` arm (it is not exhaustive); that case is
modelled as `none`. -/
noncomputable def eval : Expr → Point → Option ℝ
  | .Const c, _ => some c
  | .X, p => some p.x
  | .Y, p => some p.y
  | .Z, p => some p.z
  | .Add a b, p => do pure ((← eval a p) + (← eval b p))
  | .Sub a b, p => do pure ((← eval a p) - (← eval b p))
  | .Mul a b, p => do pure ((← eval a p) * (← eval b p))
  | .Div a b, p => do pure ((← eval a p) / (← eval b p))
  | .Neg a, p => do pure (-(← eval a p))
  | .Sin a, p => do pure (Real.sin (← eval a p))
  | .Cos a, p => do pure (Real.cos (← eval a p))
  | .Exp a, p => do pure (Real.exp (← eval a p))
  | .Min a b, p => do pure (min (← eval a p) (← eval b p))
  | .Max a b, p => do pure (max (← eval a p) (← eval b p))
  | .SMin a b k, p => do
      let va ← eval a p
      let vb ← eval b p
      let h := clamp01 (0.5 + 0.5 * (vb - va) / k)
      pure (vb * (1 - h) + va * h - k * h * (1 - h))
  | .SMax a b k, p => do
      let va ← eval a p
      let vb ← eval b p
      let h := clamp01 (0.5 - 0.5 * (vb - va) / k)
      pure (vb * (1 - h) + va * h + k * h * (1 - h))
  | .Translate e dx dy dz, p => eval e ⟨p.x - dx, p.y - dy, p.z - dz⟩
  | .RotateZ _ _, _ => none

/-- Dual number with a 3-wide gradient, from `src/crates/kernel/src/ad.rs`
(`struct AD1`). -/
structure AD1 where
  v : ℝ
  g : Fin 3 → ℝ

/-- `AD1::c`, a constant dual. -/
noncomputable def AD1.c (v : ℝ) : AD1 := ⟨v, ![0, 0, 0]⟩

/-- `AD1::add`. -/
noncomputable def AD1.add (s r : AD1) : AD1 :=
  ⟨s.v + r.v, ![s.g 0 + r.g 0, s.g 1 + r.g 1, s.g 2 + r.g 2]⟩

/-- `AD1::sub`. -/
noncomputable def AD1.sub (s r : AD1) : AD1 :=
  ⟨s.v - r.v, ![s.g 0 - r.g 0, s.g 1 - r.g 1, s.g 2 - r.g 2]⟩

/-- `AD1::mul`. -/
noncomputable def AD1.mul (s r : AD1) : AD1 :=
  ⟨s.v * r.v,
    ![s.g 0 * r.v + r.g 0 * s.v, s.g 1 * r.v + r.g 1 * s.v,
      s.g 2 * r.v + r.g 2 * s.v]⟩

/-- `AD1::div` (computed as `a * (1/b)` with `inv2 = inv * inv`). -/
noncomputable def AD1.div (s r : AD1) : AD1 :=
  let inv := 1 / r.v
  let inv2 := inv * inv
  ⟨s.v * inv,
    ![(s.g 0 * r.v - s.v * r.g 0) * inv2, (s.g 1 * r.v - s.v * r.g 1) * inv2,
      (s.g 2 * r.v - s.v * r.g 2) * inv2]⟩

/-- Gradient interpreter, from `src/crates/kernel/src/ad.rs` (`fn eval_ad`).
As with `eval`, the source match has no `RotateZ` arm; that case is `none`. -/
noncomputable def eval_ad : Expr → ℝ → ℝ → ℝ → Option AD1
  | .Const c, _, _, _ => some (AD1.c c)
  | .X, x, _, _ => some ⟨x, ![1, 0, 0]⟩
  | .Y, _, y, _ => some ⟨y, ![0, 1, 0]⟩
  | .Z, _, _, z => some ⟨z, ![0, 0, 1]⟩
  | .Add a b, x, y, z => do pure (AD1.add (← eval_ad a x y z) (← eval_ad b x y z))
  | .Sub a b, x, y, z => do pure (AD1.sub (← eval_ad a x y z) (← eval_ad b x y z))
  | .Mul a b, x, y, z => do pure (AD1.mul (← eval_ad a x y z) (← eval_ad b x y z))
  | .Div a b, x, y, z => do pure (AD1.div (← eval_ad a x y z) (← eval_ad b x y z))
  | .Neg a, x, y, z => do
      let p ← eval_ad a x y z
      pure ⟨-p.v, ![-p.g 0, -p.g 1, -p.g 2]⟩
  | .Sin a, x, y, z => do
      let p ← eval_ad a x y z
      let c := Real.cos p.v
      pure ⟨Real.sin p.v, ![p.g 0 * c, p.g 1 * c, p.g 2 * c]⟩
  | .Cos a, x, y, z => do
      let p ← eval_ad a x y z
      let s := -Real.sin p.v
      pure ⟨Real.cos p.v, ![p.g 0 * s, p.g 1 * s, p.g 2 * s]⟩
  | .Exp a, x, y, z => do
      let p ← eval_ad a x y z
      let e := Real.exp p.v
      pure ⟨e, ![p.g 0 * e, p.g 1 * e, p.g 2 * e]⟩
  | .Min a b, x, y, z => do
      let va ← eval_ad a x y z
      let vb ← eval_ad b x y z
      pure (if va.v < vb.v then va else vb)
  | .Max a b, x, y, z => do
      let va ← eval_ad a x y z
      let vb ← eval_ad b x y z
      pure (if va.v > vb.v then va else vb)
  | .SMin a b k, x, y, z => do
      let va ← eval_ad a x y z
      let vb ← eval_ad b x y z
      let h := clamp01 (0.5 + 0.5 * (vb.v - va.v) / k)
      pure ⟨vb.v * (1 - h) + va.v * h - k * h * (1 - h),
        ![vb.g 0 * (1 - h) + va.g 0 * h, vb.g 1 * (1 - h) + va.g 1 * h,
          vb.g 2 * (1 - h) + va.g 2 * h]⟩
  | .SMax a b k, x, y, z => do
      let va ← eval_ad a x y z
      let vb ← eval_ad b x y z
      let h := clamp01 (0.5 - 0.5 * (vb.v - va.v) / k)
      pure ⟨vb.v * (1 - h) + va.v * h + k * h * (1 - h),
        ![vb.g 0 * (1 - h) + va.g 0 * h, vb.g 1 * (1 - h) + va.g 1 * h,
          vb.g 2 * (1 - h) + va.g 2 * h]⟩
  | .Translate e dx dy dz, x, y, z => eval_ad e (x - dx) (y - dy) (z - dz)
  | .RotateZ _ _, _, _, _ => none

/-- Interval with (possibly infinite) endpoints, from
`src/crates/kernel/src/interval.rs` (`struct Interval`); `f64` endpoints,
including `f64::INFINITY` / `f64::NEG_INFINITY`, are modelled as `EReal`. -/
structure Interval where
  lo : EReal
  hi : EReal

/-- `f64::exp` on an extended real: `exp(-∞) = 0`, `exp(∞) = ∞`. -/
noncomputable def expE (a : EReal) : EReal :=
  if a = ⊥ then 0 else if a = ⊤ then ⊤ else ((Real.exp a.toReal : ℝ) : EReal)

/-- Interval interpreter, from `src/crates/kernel/src/interval.rs`
(`fn eval_interval`).  Multiplication and division fold `min`/`max` over the
four corner products starting from `+∞` / `-∞`, exactly as the source; a
divisor interval straddling zero yields the full line.  The source match has
no `RotateZ` arm; that case is `none`. -/
noncomputable def eval_interval : Expr → Interval → Interval → Interval → Option Interval
  | .Const c, _, _, _ => some ⟨(c : EReal), (c : EReal)⟩
  | .X, x, _, _ => some x
  | .Y, _, y, _ => some y
  | .Z, _, _, z => some z
  | .Add a b, x, y, z => do
      let ia ← eval_interval a x y z
      let ib ← eval_interval b x y z
      pure ⟨ia.lo + ib.lo, ia.hi + ib.hi⟩
  | .Sub a b, x, y, z => do
      let ia ← eval_interval a x y z
      let ib ← eval_interval b x y z
      pure ⟨ia.lo - ib.hi, ia.hi - ib.lo⟩
  | .Mul a b, x, y, z => do
      let ia ← eval_interval a x y z
      let ib ← eval_interval b x y z
      let p := [ia.lo * ib.lo, ia.lo * ib.hi, ia.hi * ib.lo, ia.hi * ib.hi]
      pure ⟨p.foldl min ⊤, p.foldl max ⊥⟩
  | .Div a b, x, y, z => do
      let ia ← eval_interval a x y z
      let ib ← eval_interval b x y z
      if ib.lo ≤ 0 ∧ 0 ≤ ib.hi then
        pure ⟨⊥, ⊤⟩
      else
        let p := [ia.lo / ib.lo, ia.lo / ib.hi, ia.hi / ib.lo, ia.hi / ib.hi]
        pure ⟨p.foldl min ⊤, p.foldl max ⊥⟩
  | .Neg a, x, y, z => do
      let ia ← eval_interval a x y z
      pure ⟨-ia.hi, -ia.lo⟩
  | .Sin _, _, _, _ => some ⟨(-1 : EReal), (1 : EReal)⟩
  | .Cos _, _, _, _ => some ⟨(-1 : EReal), (1 : EReal)⟩
  | .Exp a, x, y, z => do
      let ia ← eval_interval a x y z
      pure ⟨expE ia.lo, expE ia.hi⟩
  | .Min a b, x, y, z | .SMin a b _, x, y, z => do
      let ia ← eval_interval a x y z
      let ib ← eval_interval b x y z
      pure ⟨min ia.lo ib.lo, min ia.hi ib.hi⟩
  | .Max a b, x, y, z | .SMax a b _, x, y, z => do
      let ia ← eval_interval a x y z
      let ib ← eval_interval b x y z
      pure ⟨max ia.lo ib.lo, max ia.hi ib.hi⟩
  | .Translate e _ _ _, x, y, z => eval_interval e x y z
  | .RotateZ _ _, _, _, _ => none

/-- Expressions containing no `RotateZ` node: exactly the expressions on which
the three numeric interpreters have defining equations. -/
def noRotate : Expr → Bool
  | .Const _ | .X | .Y | .Z => true
  | .Add a b | .Sub a b | .Mul a b | .Div a b | .Min a b | .Max a b
  | .SMin a b _ | .SMax a b _ => noRotate a && noRotate b
  | .Neg a | .Sin a | .Cos a | .Exp a => noRotate a
  | .Translate e _ _ _ => noRotate e
  | .RotateZ _ _ => false

/-- Expressions containing no `Sin` or `Cos` node (the class quantified over by
the spec's interval-containment property). -/
def noSinCos : Expr → Bool
  | .Const _ | .X | .Y | .Z => true
  | .Add a b | .Sub a b | .Mul a b | .Div a b | .Min a b | .Max a b
  | .SMin a b _ | .SMax a b _ => noSinCos a && noSinCos b
  | .Neg a | .Exp a => noSinCos a
  | .Sin _ | .Cos _ => false
  | .Translate e _ _ _ => noSinCos e
  | .RotateZ e _ => noSinCos e

/-- Expressions built only from `Const`, `X`, `Y`, `Z`, `Add`, `Sub`, `Mul`,
`Div`, `Neg`, `Exp`, `Min`, `Max`: the fragment on which the interval
interpreter is a sound enclosure of the value interpreter. -/
def intervalSafe : Expr → Bool
  | .Const _ | .X | .Y | .Z => true
  | .Add a b | .Sub a b | .Mul a b | .Div a b | .Min a b | .Max a b =>
      intervalSafe a && intervalSafe b
  | .Neg a | .Exp a => intervalSafe a
  | .Sin _ | .Cos _ | .SMin _ _ _ | .SMax _ _ _ | .Translate _ _ _ _
  | .RotateZ _ _ => false

/-- Topology graph node, from `src/crates/kernel/src/topology.rs`
(`struct TopologyNode`).  Ids (`n0`, `n1`, …) are modelled by their minted
counter value, and the JSON parameter blob by a numeric association list. -/
structure TopologyNode where
  id : ℕ
  op : String
  inputs : List ℕ
  params : List (String × ℝ)

/-- Topology signature hint (`struct TopologySignature`). -/
structure TopologySignature where
  betti_hint : Fin 3 → ℕ
  euler_hint : ℤ
  genus_hint : ℕ

/-- Topology program (`struct TopologyProgram`). -/
structure TopologyProgram where
  format : String
  root : ℕ
  nodes : List TopologyNode
  invariants : List String
  signature : TopologySignature

/-- `TopologyProgram::default()`: format tag, empty graph, advisory invariant
names, and the default signature hint. -/
def TopologyProgram.default : TopologyProgram where
  format := "morse.topo.v1"
  root := 0
  nodes := []
  invariants := ["field_is_truth", "no_mesh_in_critical_path", "single_expression_graph"]
  signature := ⟨![1, 0, 0], 1, 0⟩

/-- Post-order encoder walk, from `fn expr_to_topology`'s inner `fn walk`:
children are walked first, then a fresh id is minted and the node pushed.
Returns the node's id, the extended node list and the next counter value. -/
def walk : Expr → List TopologyNode → ℕ → ℕ × List TopologyNode × ℕ
  | .Const c, nodes, n => (n, nodes ++ [⟨n, "const", [], [("value", c)]⟩], n + 1)
  | .X, nodes, n => (n, nodes ++ [⟨n, "x", [], []⟩], n + 1)
  | .Y, nodes, n => (n, nodes ++ [⟨n, "y", [], []⟩], n + 1)
  | .Z, nodes, n => (n, nodes ++ [⟨n, "z", [], []⟩], n + 1)
  | .Add a b, nodes, n =>
      let (ai, nodes1, n1) := walk a nodes n
      let (bi, nodes2, n2) := walk b nodes1 n1
      (n2, nodes2 ++ [⟨n2, "add", [ai, bi], []⟩], n2 + 1)
  | .Sub a b, nodes, n =>
      let (ai, nodes1, n1) := walk a nodes n
      let (bi, nodes2, n2) := walk b nodes1 n1
      (n2, nodes2 ++ [⟨n2, "sub", [ai, bi], []⟩], n2 + 1)
  | .Mul a b, nodes, n =>
      let (ai, nodes1, n1) := walk a nodes n
      let (bi, nodes2, n2) := walk b nodes1 n1
      (n2, nodes2 ++ [⟨n2, "mul", [ai, bi], []⟩], n2 + 1)
  | .Div a b, nodes, n =>
      let (ai, nodes1, n1) := walk a nodes n
      let (bi, nodes2, n2) := walk b nodes1 n1
      (n2, nodes2 ++ [⟨n2, "div", [ai, bi], []⟩], n2 + 1)
  | .Min a b, nodes, n =>
      let (ai, nodes1, n1) := walk a nodes n
      let (bi, nodes2, n2) := walk b nodes1 n1
      (n2, nodes2 ++ [⟨n2, "min", [ai, bi], []⟩], n2 + 1)
  | .Max a b, nodes, n =>
      let (ai, nodes1, n1) := walk a nodes n
      let (bi, nodes2, n2) := walk b nodes1 n1
      (n2, nodes2 ++ [⟨n2, "max", [ai, bi], []⟩], n2 + 1)
  | .Neg a, nodes, n =>
      let (ai, nodes1, n1) := walk a nodes n
      (n1, nodes1 ++ [⟨n1, "neg", [ai], []⟩], n1 + 1)
  | .Sin a, nodes, n =>
      let (ai, nodes1, n1) := walk a nodes n
      (n1, nodes1 ++ [⟨n1, "sin", [ai], []⟩], n1 + 1)
  | .Cos a, nodes, n =>
      let (ai, nodes1, n1) := walk a nodes n
      (n1, nodes1 ++ [⟨n1, "cos", [ai], []⟩], n1 + 1)
  | .Exp a, nodes, n =>
      let (ai, nodes1, n1) := walk a nodes n
      (n1, nodes1 ++ [⟨n1, "exp", [ai], []⟩], n1 + 1)
  | .SMin a b k, nodes, n =>
      let (ai, nodes1, n1) := walk a nodes n
      let (bi, nodes2, n2) := walk b nodes1 n1
      (n2, nodes2 ++ [⟨n2, "smin", [ai, bi], [("k", k)]⟩], n2 + 1)
  | .SMax a b k, nodes, n =>
      let (ai, nodes1, n1) := walk a nodes n
      let (bi, nodes2, n2) := walk b nodes1 n1
      (n2, nodes2 ++ [⟨n2, "smax", [ai, bi], [("k", k)]⟩], n2 + 1)
  | .Translate e dx dy dz, nodes, n =>
      let (ei, nodes1, n1) := walk e nodes n
      (n1, nodes1 ++ [⟨n1, "translate", [ei], [("dx", dx), ("dy", dy), ("dz", dz)]⟩], n1 + 1)
  | .RotateZ e deg, nodes, n =>
      let (ei, nodes1, n1) := walk e nodes n
      (n1, nodes1 ++ [⟨n1, "rotate_z", [ei], [("deg", deg)]⟩], n1 + 1)

/-- Encoder, from `fn expr_to_topology`: walk the tree starting from the
default program with counter 0; the returned id becomes the root. -/
def expr_to_topology (e : Expr) : TopologyProgram :=
  let (root, nodes, _) := walk e [] 0
  { TopologyProgram.default with root := root, nodes := nodes }

/-- Shape primitive `sphere(r)`, from `src/crates/kernel/src/expr.rs`:
`x² + y² + z² − r²`. -/
def sphere (r : ℝ) : Expr :=
  .Sub (.Add (.Add (.Mul .X .X) (.Mul .Y .Y)) (.Mul .Z .Z)) (.Const (r * r))

/-- `fn z_slab(z0, z1)`: `max(z0 − z, z − z1)`. -/
def z_slab (z0 z1 : ℝ) : Expr :=
  .Max (.Sub (.Const z0) .Z) (.Sub .Z (.Const z1))

/-- Shape primitive `cylinder(radius, height)`. -/
def cylinder (radius height : ℝ) : Expr :=
  .Max (.Sub (.Add (.Mul .X .X) (.Mul .Y .Y)) (.Const (radius * radius)))
    (z_slab 0 height)

/-- Shape primitive `box3(sx, sy, sz)`. -/
def box3 (sx sy sz : ℝ) : Expr :=
  let hx := sx * 0.5
  let hy := sy * 0.5
  let hz := sz * 0.5
  .Max
    (.Max (.Sub (.Mul .X (.Const 1)) (.Const hx)) (.Sub (.Const (-hx)) .X))
    (.Max
      (.Max (.Sub (.Mul .Y (.Const 1)) (.Const hy)) (.Sub (.Const (-hy)) .Y))
      (.Max (.Sub (.Mul .Z (.Const 1)) (.Const hz)) (.Sub (.Const (-hz)) .Z)))

/-- Shape primitive `torus(major_r, minor_r)`. -/
def torus (major_r minor_r : ℝ) : Expr :=
  let q : Expr := .Add (.Add (.Mul .X .X) (.Mul .Y .Y)) (.Mul .Z .Z)
  let t : Expr := .Sub q (.Const (major_r * major_r + minor_r * minor_r))
  .Sub (.Mul t t)
    (.Mul (.Const (4 * major_r * major_r)) (.Add (.Mul .X .X) (.Mul .Y .Y)))

/-- The decoder's id table, modelling `HashMap<String, Expr>`: insertion
prepends, lookup takes the first (most recent) binding, matching the map's
overwrite-on-insert semantics. -/
def lookupId (k : ℕ) : List (ℕ × Expr) → Option Expr
  | [] => none
  | (i, e) :: t => if i = k then some e else lookupId k t

/-- Parameter access `node.params.get(key).and_then(Value::as_f64)`. -/
def getParam (params : List (String × ℝ)) (key : String) : Option ℝ :=
  match params with
  | [] => none
  | (k, v) :: t => if k = key then some v else getParam t key

/-- The decoder's `get1` closure: look one input id up in the table. -/
def get1 (built : List (ℕ × Expr)) (a : ℕ) : Except String Expr :=
  match lookupId a built with
  | some e => .ok e
  | none => .error ("missing input node: n" ++ toString a)

/-- The decoder's `get2` closure: exactly two input ids, both resolved in
order. -/
def get2 (op : String) (built : List (ℕ × Expr)) (ins : List ℕ) :
    Except String (Expr × Expr) :=
  match ins with
  | [a, b] => do pure (← get1 built a, ← get1 built b)
  | _ => .error ("op " ++ op ++ " expects 2 inputs")

/-- Decode one node, from the body of `fn topology_to_expr`'s loop.  The outer
`Option` models Rust panics: the `neg`/`sin`/`cos`/`exp` arms index
`node.inputs[0]` without a bounds check, which panics on an empty input
list. -/
def decodeNode (node : TopologyNode) (built : List (ℕ × Expr)) :
    Option (Except String Expr) :=
  match node.op with
  | "const" =>
      match getParam node.params "value" with
      | some v => some (.ok (.Const v))
      | none => some (.error "const missing numeric value")
  | "x" => some (.ok .X)
  | "y" => some (.ok .Y)
  | "z" => some (.ok .Z)
  | "sphere" =>
      match getParam node.params "r" with
      | some r => some (.ok (sphere r))
      | none => some (.error "sphere missing numeric r")
  | "cylinder" =>
      match getParam node.params "r" with
      | some r =>
          match getParam node.params "h" with
          | some h => some (.ok (cylinder r h))
          | none => some (.error "cylinder missing numeric h")
      | none => some (.error "cylinder missing numeric r")
  | "box" =>
      match getParam node.params "sx" with
      | some sx =>
          match getParam node.params "sy" with
          | some sy =>
              match getParam node.params "sz" with
              | some sz => some (.ok (box3 sx sy sz))
              | none => some (.error "box missing numeric sz")
          | none => some (.error "box missing numeric sy")
      | none => some (.error "box missing numeric sx")
  | "torus" =>
      match getParam node.params "major_r" with
      | some mr =>
          match getParam node.params "minor_r" with
          | some nr => some (.ok (torus mr nr))
          | none => some (.error "torus missing numeric minor_r")
      | none => some (.error "torus missing numeric major_r")
  | "add" =>
      match get2 node.op built node.inputs with
      | .ok (a, b) => some (.ok (.Add a b))
      | .error m => some (.error m)
  | "sub" =>
      match get2 node.op built node.inputs with
      | .ok (a, b) => some (.ok (.Sub a b))
      | .error m => some (.error m)
  | "mul" =>
      match get2 node.op built node.inputs with
      | .ok (a, b) => some (.ok (.Mul a b))
      | .error m => some (.error m)
  | "div" =>
      match get2 node.op built node.inputs with
      | .ok (a, b) => some (.ok (.Div a b))
      | .error m => some (.error m)
  | "min" =>
      match get2 node.op built node.inputs with
      | .ok (a, b) => some (.ok (.Min a b))
      | .error m => some (.error m)
  | "max" =>
      match get2 node.op built node.inputs with
      | .ok (a, b) => some (.ok (.Max a b))
      | .error m => some (.error m)
  | "smin" =>
      match get2 node.op built node.inputs with
      | .ok (a, b) =>
          match getParam node.params "k" with
          | some k => some (.ok (.SMin a b k))
          | none => some (.error "smin missing numeric k")
      | .error m => some (.error m)
  | "smax" =>
      match get2 node.op built node.inputs with
      | .ok (a, b) =>
          match getParam node.params "k" with
          | some k => some (.ok (.SMax a b k))
          | none => some (.error "smax missing numeric k")
      | .error m => some (.error m)
  | "neg" =>
      match node.inputs.get? 0 with
      | none => none
      | some i =>
          match get1 built i with
          | .ok e => some (.ok (.Neg e))
          | .error m => some (.error m)
  | "sin" =>
      match node.inputs.get? 0 with
      | none => none
      | some i =>
          match get1 built i with
          | .ok e => some (.ok (.Sin e))
          | .error m => some (.error m)
  | "cos" =>
      match node.inputs.get? 0 with
      | none => none
      | some i =>
          match get1 built i with
          | .ok e => some (.ok (.Cos e))
          | .error m => some (.error m)
  | "exp" =>
      match node.inputs.get? 0 with
      | none => none
      | some i =>
          match get1 built i with
          | .ok e => some (.ok (.Exp e))
          | .error m => some (.error m)
  | "translate" =>
      if node.inputs.length ≠ 1 then
        some (.error "translate expects 1 input")
      else
        match node.inputs.get? 0 with
        | none => none
        | some i =>
            match get1 built i with
            | .error m => some (.error m)
            | .ok e =>
                match getParam node.params "dx" with
                | none => some (.error "translate missing numeric dx")
                | some dx =>
                    match getParam node.params "dy" with
                    | none => some (.error "translate missing numeric dy")
                    | some dy =>
                        match getParam node.params "dz" with
                        | none => some (.error "translate missing numeric dz")
                        | some dz => some (.ok (.Translate e dx dy dz))
  | "rotate_z" =>
      if node.inputs.length ≠ 1 then
        some (.error "rotate_z expects 1 input")
      else
        match node.inputs.get? 0 with
        | none => none
        | some i =>
            match get1 built i with
            | .error m => some (.error m)
            | .ok e =>
                match getParam node.params "deg" with
                | none => some (.error "rotate_z missing numeric deg")
                | some deg => some (.ok (.RotateZ e deg))
  | "union" =>
      match get2 node.op built node.inputs with
      | .ok (a, b) => some (.ok (.Min a b))
      | .error m => some (.error m)
  | "intersect" =>
      match get2 node.op built node.inputs with
      | .ok (a, b) => some (.ok (.Max a b))
      | .error m => some (.error m)
  | "difference" =>
      match get2 node.op built node.inputs with
      | .ok (a, b) => some (.ok (.Max a (.Neg b)))
      | .error m => some (.error m)
  | other => some (.error ("unsupported topology op: " ++ other))

/-- Decode all nodes in listed order, threading the id table; an `Err` aborts
the loop, and a panic (outer `none`) propagates. -/
def decodeNodes : List TopologyNode → List (ℕ × Expr) →
    Option (Except String (List (ℕ × Expr)))
  | [], built => some (.ok built)
  | node :: rest, built =>
      match decodeNode node built with
      | none => none
      | some (.error m) => some (.error m)
      | some (.ok e) => decodeNodes rest ((node.id, e) :: built)

/-- Decoder, from `fn topology_to_expr`: process the nodes, then take the
expression registered under the root id. -/
def topology_to_expr (p : TopologyProgram) : Option (Except String Expr) :=
  match decodeNodes p.nodes [] with
  | none => none
  | some (.error m) => some (.error m)
  | some (.ok built) =>
      match lookupId p.root built with
      | some e => some (.ok e)
      | none => some (.error ("root node n" ++ toString p.root ++ " not found"))

/-- Classified critical point, from `src/crates/kernel/src/morse.rs`
(`struct CriticalPoint`). -/
structure CriticalPoint where
  x : ℝ
  y : ℝ
  z : ℝ
  f : ℝ
  index : ℕ

/-- A 3×3 matrix `[[f64; 3]; 3]`, row-major. -/
abbrev Mat3 := Fin 3 → Fin 3 → ℝ

/-- A 3-vector `[f64; 3]`. -/
abbrev Vec3 := Fin 3 → ℝ

/-- `fn gradient`: the gradient part of the dual produced by `eval_ad` (the
source assumes `eval_ad` total; the `RotateZ` gap propagates as `none`). -/
noncomputable def gradient (e : Expr) (x y z : ℝ) : Option Vec3 :=
  (eval_ad e x y z).map AD1.g

/-- `fn hessian`: central finite difference of the gradient interpreter with
step `eps`, row `i` holding the differences of gradient component `i` along
the three axes. -/
noncomputable def hessian (e : Expr) (x y z eps : ℝ) : Option Mat3 :=
  match gradient e (x + eps) y z, gradient e (x - eps) y z,
      gradient e x (y + eps) z, gradient e x (y - eps) z,
      gradient e x y (z + eps), gradient e x y (z - eps) with
  | some gxp, some gxm, some gyp, some gym, some gzp, some gzm =>
      some
        ![![(gxp 0 - gxm 0) / (2 * eps), (gyp 0 - gym 0) / (2 * eps),
            (gzp 0 - gzm 0) / (2 * eps)],
          ![(gxp 1 - gxm 1) / (2 * eps), (gyp 1 - gym 1) / (2 * eps),
            (gzp 1 - gzm 1) / (2 * eps)],
          ![(gxp 2 - gxm 2) / (2 * eps), (gyp 2 - gym 2) / (2 * eps),
            (gzp 2 - gzm 2) / (2 * eps)]]
  | _, _, _, _, _, _ => none

/-- Row swap of a `Fin 3`-indexed family (`a.swap(i, pivot)`). -/
def swapIdx {α : Type} (v : Fin 3 → α) (i j : Fin 3) : Fin 3 → α :=
  fun r => if r = i then v j else if r = j then v i else v r

/-- `solve3`'s pivot scan for column 0: rows 1 and 2 challenge row 0 with a
strict comparison, in order. -/
noncomputable def pivot0 (a : Mat3) : Fin 3 :=
  let p := if |a 1 0| > |a 0 0| then (1 : Fin 3) else 0
  if |a 2 0| > |a p 0| then 2 else p

/-- `solve3`'s pivot scan for column 1: row 2 challenges row 1. -/
noncomputable def pivot1 (a : Mat3) : Fin 3 :=
  if |a 2 1| > |a 1 1| then 2 else 1

/-- Normalisation of row `i` (`for c in i..3 { a[i][c] /= d }; b[i] /= d`). -/
noncomputable def gjNorm (i : Fin 3) (ab : Mat3 × Vec3) : Mat3 × Vec3 :=
  let a := ab.1
  let b := ab.2
  let d := a i i
  (fun r c => if r = i ∧ i ≤ c then a r c / d else a r c,
   fun r => if r = i then b r / d else b r)

/-- Elimination of column `i` from every other row
(`for r != i { f = a[r][i]; for c in i..3 { a[r][c] -= f*a[i][c] }; b[r] -= f*b[i] }`). -/
noncomputable def gjElim (i : Fin 3) (ab : Mat3 × Vec3) : Mat3 × Vec3 :=
  let a := ab.1
  let b := ab.2
  (fun r c => if r ≠ i ∧ i ≤ c then a r c - a r i * a i c else a r c,
   fun r => if r ≠ i then b r - a r i * b i else b r)

/-- One full column step of `solve3` after a pivot row has been chosen. -/
noncomputable def gjStep (i p : Fin 3) (ab : Mat3 × Vec3) : Mat3 × Vec3 :=
  gjElim i (gjNorm i (swapIdx ab.1 i p, swapIdx ab.2 i p))

/-- `fn solve3`: Gauss–Jordan elimination with partial pivoting on a 3×3
system; `none` when the largest pivot magnitude in the current column falls
below `1e-12`. -/
noncomputable def solve3 (a : Mat3) (b : Vec3) : Option Vec3 :=
  let p0 := pivot0 a
  if |a p0 0| < 1e-12 then none
  else
    let ab1 := gjStep 0 p0 (a, b)
    let p1 := pivot1 ab1.1
    if |ab1.1 p1 1| < 1e-12 then none
    else
      let ab2 := gjStep 1 p1 ab1
      if |ab2.1 2 2| < 1e-12 then none
      else some (gjStep 2 2 ab2).2

/-- `f64::atan2(y, x)`, the angle of the point `(x, y)`, modelled by the
complex argument (both lie in `(-π, π]` and send the origin to 0). -/
noncomputable def atan2 (y x : ℝ) : ℝ :=
  Complex.arg ⟨x, y⟩

/-- `jacobi_eigs`' scan for the off-diagonal entry of largest magnitude:
starts at `(0, 1)`, then `(0, 2)` and `(1, 2)` challenge with a strict
comparison. -/
noncomputable def offDiagMax (a : Mat3) : Fin 3 × Fin 3 × ℝ :=
  let s0 : Fin 3 × Fin 3 × ℝ := (0, 1, |a 0 1|)
  let s1 := if |a 0 2| > s0.2.2 then ((0 : Fin 3), (2 : Fin 3), |a 0 2|) else s0
  if |a 1 2| > s1.2.2 then (1, 2, |a 1 2|) else s1

/-- One Jacobi rotation at `(p, q)`: the column update (rows read their own
old values) followed by the row update on the already column-rotated
matrix, exactly as the two sequential loops in `jacobi_eigs`. -/
noncomputable def jrotate (a : Mat3) (p q : Fin 3) : Mat3 :=
  let phi := 0.5 * atan2 (2 * a p q) (a q q - a p p)
  let c := Real.cos phi
  let s := Real.sin phi
  let a1 : Mat3 := fun r col =>
    if col = p then c * a r p - s * a r q
    else if col = q then s * a r p + c * a r q
    else a r col
  fun r col =>
    if r = p then c * a1 p col - s * a1 q col
    else if r = q then s * a1 p col + c * a1 q col
    else a1 r col

/-- The sweep loop of `jacobi_eigs` with an explicit fuel (24 in the source):
stop early when the largest off-diagonal magnitude is below `1e-10`. -/
noncomputable def jacobiAux (a : Mat3) : ℕ → Mat3
  | 0 => a
  | n + 1 =>
      let s := offDiagMax a
      if s.2.2 < 1e-10 then a else jacobiAux (jrotate a s.1 s.2.1) n

/-- `fn jacobi_eigs`: 24 sweeps, returning the diagonal. -/
noncomputable def jacobi_eigs (a : Mat3) : Vec3 :=
  let b := jacobiAux a 24
  ![b 0 0, b 1 1, b 2 2]

/-- `fn morse_index`: the number of strictly negative eigenvalues. -/
noncomputable def morse_index (h : Mat3) : ℕ :=
  let eigs := jacobi_eigs h
  ([eigs 0, eigs 1, eigs 2].filter (fun e => e < 0)).length

/-- `f64::is_finite` on the real model: every real number is finite (the
infinities and NaN of `f64` have no counterpart in `ℝ`), so the solver's
non-finite bailout never fires in the model. -/
def isFiniteR (_ : ℝ) : Bool := true

/-- The Newton loop of `fn refine_critical` with explicit fuel.  Each
iteration reads the gradient, terminates successfully when its norm is below
`1e-8` (classifying with the `eps = 1e-4` Hessian), otherwise solves
`H·δ = -g`, failing on a singular system, and steps the point, failing if a
coordinate stops being finite.  Interpreter gaps (`RotateZ`) surface as the
`none` fall-through arms. -/
noncomputable def refineAux (e : Expr) : ℝ → ℝ → ℝ → ℕ → Option CriticalPoint
  | _, _, _, 0 => none
  | x, y, z, n + 1 =>
      match gradient e x y z with
      | none => none
      | some g =>
          if Real.sqrt (g 0 * g 0 + g 1 * g 1 + g 2 * g 2) < 1e-8 then
            match eval_ad e x y z, hessian e x y z 1e-4 with
            | some d, some h => some ⟨x, y, z, d.v, morse_index h⟩
            | _, _ => none
          else
            match hessian e x y z 1e-4 with
            | none => none
            | some h =>
                match solve3 h ![-g 0, -g 1, -g 2] with
                | none => none
                | some delta =>
                    if isFiniteR (x + delta 0) && isFiniteR (y + delta 1) &&
                        isFiniteR (z + delta 2) then
                      refineAux e (x + delta 0) (y + delta 1) (z + delta 2) n
                    else none

/-- `fn refine_critical`: the Newton loop with its budget of 24 iterations. -/
noncomputable def refine_critical (e : Expr) (x y z : ℝ) : Option CriticalPoint :=
  refineAux e x y z 24

/-! ## C5, C6: interpreter coverage and decoder arity handling -/

/-- C5: the spec requires the numeric interpreters to accept `RotateZ` when the
algebra has it; in the source none of `eval`, `eval_ad`, `eval_interval` has a
`RotateZ` match arm (the match is not exhaustive), so each is undefined on the
expression `RotateZ(X, 90)` — modelled as returning `none`. -/
theorem c5_rotatez_not_accepted :
    eval (Expr.RotateZ Expr.X 90) ⟨1, 0, 0⟩ = none ∧
    eval_ad (Expr.RotateZ Expr.X 90) 1 0 0 = none ∧
    eval_interval (Expr.RotateZ Expr.X 90) ⟨0, 1⟩ ⟨0, 1⟩ ⟨0, 1⟩ = none :=
  ⟨rfl, rfl, rfl⟩

/-- C6: decoding a program whose single node is `neg` with an empty input list
does not return an `Err`: the `neg` arm indexes `node.inputs[0]` without a
bounds check, which is a Rust panic — modelled as the outer `none`. -/
theorem c6_unary_arity_panic :
    topology_to_expr
      ⟨"morse.topo.v1", 0, [⟨0, "neg", [], []⟩],
        ["field_is_truth", "no_mesh_in_critical_path", "single_expression_graph"],
        ⟨![1, 0, 0], 1, 0⟩⟩ = none := by
  rfl

/-! ## C7, C8: sharp and smooth CSG in the gradient interpreter -/

/-- C7: `eval_ad` on `Min` passes the `a`-child's dual through entirely when
`a.v < b.v` and the `b`-child's dual otherwise (so at a tie `b` wins), and
dually for `Max` with `a.v > b.v`; gradients are never blended. -/
theorem c7_minmax_winner_takes_all (a b : Expr) (x y z : ℝ) (da db : AD1)
    (ha : eval_ad a x y z = some da) (hb : eval_ad b x y z = some db) :
    eval_ad (.Min a b) x y z = some (if da.v < db.v then da else db) ∧
    eval_ad (.Max a b) x y z = some (if da.v > db.v then da else db) := by
  constructor <;> simp [eval_ad, ha, hb]

/-- Witness for C7 at `a = X`, `b = Y`, point `(1, 2, 3)`. -/
theorem c7_minmax_winner_takes_all_witness :
    eval_ad (.Min Expr.X Expr.Y) 1 2 3 =
      some (if (AD1.mk 1 ![1, 0, 0]).v < (AD1.mk 2 ![0, 1, 0]).v then
        AD1.mk 1 ![1, 0, 0] else AD1.mk 2 ![0, 1, 0]) ∧
    eval_ad (.Max Expr.X Expr.Y) 1 2 3 =
      some (if (AD1.mk 1 ![1, 0, 0]).v > (AD1.mk 2 ![0, 1, 0]).v then
        AD1.mk 1 ![1, 0, 0] else AD1.mk 2 ![0, 1, 0]) :=
  c7_minmax_winner_takes_all Expr.X Expr.Y 1 2 3 _ _ rfl rfl

/-- C8: the smooth operators evaluate to the polynomial blend
`b·(1−h) + a·h ∓ k·h·(1−h)` with `h = clamp(0.5 ± 0.5·(b−a)/k, 0, 1)`, and the
gradient interpreter reports the linear interpolation of the child gradients
by the same `h` (computed from the dual values), treating `h` as constant. -/
theorem c8_smooth_blend (a b : Expr) (k : ℝ) (hk : 0 < k) (x y z va vb : ℝ)
    (da db : AD1)
    (hva : eval a ⟨x, y, z⟩ = some va) (hvb : eval b ⟨x, y, z⟩ = some vb)
    (hda : eval_ad a x y z = some da) (hdb : eval_ad b x y z = some db) :
    eval (.SMin a b k) ⟨x, y, z⟩ =
      some (vb * (1 - clamp01 (0.5 + 0.5 * (vb - va) / k)) +
        va * clamp01 (0.5 + 0.5 * (vb - va) / k) -
        k * clamp01 (0.5 + 0.5 * (vb - va) / k) *
          (1 - clamp01 (0.5 + 0.5 * (vb - va) / k))) ∧
    eval (.SMax a b k) ⟨x, y, z⟩ =
      some (vb * (1 - clamp01 (0.5 - 0.5 * (vb - va) / k)) +
        va * clamp01 (0.5 - 0.5 * (vb - va) / k) +
        k * clamp01 (0.5 - 0.5 * (vb - va) / k) *
          (1 - clamp01 (0.5 - 0.5 * (vb - va) / k))) ∧
    eval_ad (.SMin a b k) x y z =
      some ⟨db.v * (1 - clamp01 (0.5 + 0.5 * (db.v - da.v) / k)) +
          da.v * clamp01 (0.5 + 0.5 * (db.v - da.v) / k) -
          k * clamp01 (0.5 + 0.5 * (db.v - da.v) / k) *
            (1 - clamp01 (0.5 + 0.5 * (db.v - da.v) / k)),
        ![db.g 0 * (1 - clamp01 (0.5 + 0.5 * (db.v - da.v) / k)) +
            da.g 0 * clamp01 (0.5 + 0.5 * (db.v - da.v) / k),
          db.g 1 * (1 - clamp01 (0.5 + 0.5 * (db.v - da.v) / k)) +
            da.g 1 * clamp01 (0.5 + 0.5 * (db.v - da.v) / k),
          db.g 2 * (1 - clamp01 (0.5 + 0.5 * (db.v - da.v) / k)) +
            da.g 2 * clamp01 (0.5 + 0.5 * (db.v - da.v) / k)]⟩ ∧
    eval_ad (.SMax a b k) x y z =
      some ⟨db.v * (1 - clamp01 (0.5 - 0.5 * (db.v - da.v) / k)) +
          da.v * clamp01 (0.5 - 0.5 * (db.v - da.v) / k) +
          k * clamp01 (0.5 - 0.5 * (db.v - da.v) / k) *
            (1 - clamp01 (0.5 - 0.5 * (db.v - da.v) / k)),
        ![db.g 0 * (1 - clamp01 (0.5 - 0.5 * (db.v - da.v) / k)) +
            da.g 0 * clamp01 (0.5 - 0.5 * (db.v - da.v) / k),
          db.g 1 * (1 - clamp01 (0.5 - 0.5 * (db.v - da.v) / k)) +
            da.g 1 * clamp01 (0.5 - 0.5 * (db.v - da.v) / k),
          db.g 2 * (1 - clamp01 (0.5 - 0.5 * (db.v - da.v) / k)) +
            da.g 2 * clamp01 (0.5 - 0.5 * (db.v - da.v) / k)]⟩ := by
  refine ⟨?_, ?_, ?_, ?_⟩ <;> simp [eval, eval_ad, hva, hvb, hda, hdb]

/-- Witness for C8 at `a = b = Const 0`, `k = 1`, the origin. -/
theorem c8_smooth_blend_witness :
    (0 : ℝ) < 1 ∧
    eval (.SMin (Expr.Const 0) (Expr.Const 0) 1) ⟨0, 0, 0⟩ =
      some ((0 : ℝ) * (1 - clamp01 (0.5 + 0.5 * ((0 : ℝ) - 0) / 1)) +
        0 * clamp01 (0.5 + 0.5 * ((0 : ℝ) - 0) / 1) -
        1 * clamp01 (0.5 + 0.5 * ((0 : ℝ) - 0) / 1) *
          (1 - clamp01 (0.5 + 0.5 * ((0 : ℝ) - 0) / 1))) :=
  ⟨one_pos,
    (c8_smooth_blend (Expr.Const 0) (Expr.Const 0) 1 one_pos 0 0 0 0 0
      (AD1.c 0) (AD1.c 0) rfl rfl rfl rfl).1⟩

/-! ## C10: the gradient interpreter's value agrees with the value interpreter -/

/-- A binary arm of `eval_ad` agrees in value with the matching arm of `eval`
as soon as the dual combination agrees in value with the real combination. -/
theorem bin_value (A B : Option AD1) (f : AD1 → AD1 → AD1) (g : ℝ → ℝ → ℝ)
    (hfg : ∀ da db, (f da db).v = g da.v db.v) :
    Option.map AD1.v (A.bind fun da => B.bind fun db => some (f da db)) =
      (Option.map AD1.v A).bind fun va =>
        (Option.map AD1.v B).bind fun vb => some (g va vb) := by
  cases A <;> cases B <;> simp [hfg]

/-- Unary analogue of `bin_value`. -/
theorem un_value (A : Option AD1) (f : AD1 → AD1) (g : ℝ → ℝ)
    (hfg : ∀ da, (f da).v = g da.v) :
    Option.map AD1.v (A.bind fun da => some (f da)) =
      (Option.map AD1.v A).bind fun va => some (g va) := by
  cases A <;> simp [hfg]

/-- On `RotateZ`-free expressions the value carried by `eval_ad` coincides with
`eval` (over exact real arithmetic `a·(1/b) = a/b`, and the comparison-based
selections of `eval_ad` agree with `min`/`max`). -/
theorem evalAD_value_agrees (e : Expr) : ∀ x y z : ℝ, noRotate e = true →
    Option.map AD1.v (eval_ad e x y z) = eval e ⟨x, y, z⟩ := by
  induction e with
  | Const c => intro x y z _; rfl
  | X => intro x y z _; rfl
  | Y => intro x y z _; rfl
  | Z => intro x y z _; rfl
  | Add a b iha ihb =>
      intro x y z he
      simp only [noRotate, Bool.and_eq_true] at he
      simp only [eval_ad, eval, ← iha x y z he.1, ← ihb x y z he.2]
      exact bin_value _ _ _ _ (fun _ _ => rfl)
  | Sub a b iha ihb =>
      intro x y z he
      simp only [noRotate, Bool.and_eq_true] at he
      simp only [eval_ad, eval, ← iha x y z he.1, ← ihb x y z he.2]
      exact bin_value _ _ _ _ (fun _ _ => rfl)
  | Mul a b iha ihb =>
      intro x y z he
      simp only [noRotate, Bool.and_eq_true] at he
      simp only [eval_ad, eval, ← iha x y z he.1, ← ihb x y z he.2]
      exact bin_value _ _ _ _ (fun _ _ => rfl)
  | Div a b iha ihb =>
      intro x y z he
      simp only [noRotate, Bool.and_eq_true] at he
      simp only [eval_ad, eval, ← iha x y z he.1, ← ihb x y z he.2]
      exact bin_value _ _ _ _ (fun _ _ => mul_one_div _ _)
  | Neg a iha =>
      intro x y z he
      simp only [noRotate] at he
      simp only [eval_ad, eval, ← iha x y z he]
      exact un_value _ _ _ (fun _ => rfl)
  | Sin a iha =>
      intro x y z he
      simp only [noRotate] at he
      simp only [eval_ad, eval, ← iha x y z he]
      exact un_value _ _ _ (fun _ => rfl)
  | Cos a iha =>
      intro x y z he
      simp only [noRotate] at he
      simp only [eval_ad, eval, ← iha x y z he]
      exact un_value _ _ _ (fun _ => rfl)
  | Exp a iha =>
      intro x y z he
      simp only [noRotate] at he
      simp only [eval_ad, eval, ← iha x y z he]
      exact un_value _ _ _ (fun _ => rfl)
  | Min a b iha ihb =>
      intro x y z he
      simp only [noRotate, Bool.and_eq_true] at he
      simp only [eval_ad, eval, ← iha x y z he.1, ← ihb x y z he.2]
      refine bin_value _ _ _ _ (fun da db => ?_)
      rcases lt_or_ge da.v db.v with h | h
      · simp [if_pos h, min_eq_left h.le]
      · simp [if_neg (not_lt.mpr h), min_eq_right h]
  | Max a b iha ihb =>
      intro x y z he
      simp only [noRotate, Bool.and_eq_true] at he
      simp only [eval_ad, eval, ← iha x y z he.1, ← ihb x y z he.2]
      refine bin_value _ _ _ _ (fun da db => ?_)
      rcases lt_or_ge db.v da.v with h | h
      · simp [if_pos h, max_eq_left h.le]
      · simp [if_neg (not_lt.mpr h), max_eq_right h]
  | SMin a b k iha ihb =>
      intro x y z he
      simp only [noRotate, Bool.and_eq_true] at he
      simp only [eval_ad, eval, ← iha x y z he.1, ← ihb x y z he.2]
      exact bin_value _ _ _ _ (fun _ _ => rfl)
  | SMax a b k iha ihb =>
      intro x y z he
      simp only [noRotate, Bool.and_eq_true] at he
      simp only [eval_ad, eval, ← iha x y z he.1, ← ihb x y z he.2]
      exact bin_value _ _ _ _ (fun _ _ => rfl)
  | Translate e dx dy dz ihe =>
      intro x y z he
      simp only [noRotate] at he
      simpa [eval_ad, eval] using ihe (x - dx) (y - dy) (z - dz) he
  | RotateZ e deg ihe =>
      intro x y z he
      simp [noRotate] at he

/-- C10: for every `RotateZ`-free expression and every point, the value
component of `eval_ad` equals `eval` — in exact real arithmetic `a·(1/b)`
equals `a/b`, and the comparison-based `Min`/`Max` selection of `eval_ad`
yields the same value as `f64::min`/`f64::max`. -/
theorem c10_ad_value_eq_eval (e : Expr) (x y z : ℝ) (he : noRotate e = true) :
    Option.map AD1.v (eval_ad e x y z) = eval e ⟨x, y, z⟩ :=
  evalAD_value_agrees e x y z he

/-- Witness for C10 at `e = Div(X, Y)`, point `(1, 2, 3)`. -/
theorem c10_ad_value_eq_eval_witness :
    Option.map AD1.v (eval_ad (.Div Expr.X Expr.Y) 1 2 3) =
      eval (.Div Expr.X Expr.Y) ⟨1, 2, 3⟩ :=
  c10_ad_value_eq_eval (.Div Expr.X Expr.Y) 1 2 3 rfl

/-! ## C1, C9: the topology codec -/

/-- Counter value after `walk` processes an expression starting at `n`. -/
def nextE : Expr → ℕ → ℕ
  | .Const _, n | .X, n | .Y, n | .Z, n => n + 1
  | .Add a b, n | .Sub a b, n | .Mul a b, n | .Div a b, n | .Min a b, n
  | .Max a b, n | .SMin a b _, n | .SMax a b _, n => nextE b (nextE a n) + 1
  | .Neg a, n | .Sin a, n | .Cos a, n | .Exp a, n => nextE a n + 1
  | .Translate a _ _ _, n | .RotateZ a _, n => nextE a n + 1

/-- The id `walk` mints for the root of an expression walked at counter `n`
(children consume their ids first). -/
def rootIdE : Expr → ℕ → ℕ
  | .Const _, n | .X, n | .Y, n | .Z, n => n
  | .Add a b, n | .Sub a b, n | .Mul a b, n | .Div a b, n | .Min a b, n
  | .Max a b, n | .SMin a b _, n | .SMax a b _, n => nextE b (nextE a n)
  | .Neg a, n | .Sin a, n | .Cos a, n | .Exp a, n => nextE a n
  | .Translate a _ _ _, n | .RotateZ a _, n => nextE a n

/-- The node list `walk` appends for an expression walked at counter `n`. -/
def emitE : Expr → ℕ → List TopologyNode
  | .Const c, n => [⟨n, "const", [], [("value", c)]⟩]
  | .X, n => [⟨n, "x", [], []⟩]
  | .Y, n => [⟨n, "y", [], []⟩]
  | .Z, n => [⟨n, "z", [], []⟩]
  | .Add a b, n =>
      emitE a n ++ (emitE b (nextE a n) ++
        [⟨nextE b (nextE a n), "add", [rootIdE a n, rootIdE b (nextE a n)], []⟩])
  | .Sub a b, n =>
      emitE a n ++ (emitE b (nextE a n) ++
        [⟨nextE b (nextE a n), "sub", [rootIdE a n, rootIdE b (nextE a n)], []⟩])
  | .Mul a b, n =>
      emitE a n ++ (emitE b (nextE a n) ++
        [⟨nextE b (nextE a n), "mul", [rootIdE a n, rootIdE b (nextE a n)], []⟩])
  | .Div a b, n =>
      emitE a n ++ (emitE b (nextE a n) ++
        [⟨nextE b (nextE a n), "div", [rootIdE a n, rootIdE b (nextE a n)], []⟩])
  | .Min a b, n =>
      emitE a n ++ (emitE b (nextE a n) ++
        [⟨nextE b (nextE a n), "min", [rootIdE a n, rootIdE b (nextE a n)], []⟩])
  | .Max a b, n =>
      emitE a n ++ (emitE b (nextE a n) ++
        [⟨nextE b (nextE a n), "max", [rootIdE a n, rootIdE b (nextE a n)], []⟩])
  | .SMin a b k, n =>
      emitE a n ++ (emitE b (nextE a n) ++
        [⟨nextE b (nextE a n), "smin", [rootIdE a n, rootIdE b (nextE a n)], [("k", k)]⟩])
  | .SMax a b k, n =>
      emitE a n ++ (emitE b (nextE a n) ++
        [⟨nextE b (nextE a n), "smax", [rootIdE a n, rootIdE b (nextE a n)], [("k", k)]⟩])
  | .Neg a, n => emitE a n ++ [⟨nextE a n, "neg", [rootIdE a n], []⟩]
  | .Sin a, n => emitE a n ++ [⟨nextE a n, "sin", [rootIdE a n], []⟩]
  | .Cos a, n => emitE a n ++ [⟨nextE a n, "cos", [rootIdE a n], []⟩]
  | .Exp a, n => emitE a n ++ [⟨nextE a n, "exp", [rootIdE a n], []⟩]
  | .Translate a dx dy dz, n =>
      emitE a n ++
        [⟨nextE a n, "translate", [rootIdE a n], [("dx", dx), ("dy", dy), ("dz", dz)]⟩]
  | .RotateZ a deg, n =>
      emitE a n ++ [⟨nextE a n, "rotate_z", [rootIdE a n], [("deg", deg)]⟩]

/-- The id table the decoder has built after processing `emitE e n`
(most recent insertion first). -/
def tableE : Expr → ℕ → List (ℕ × Expr)
  | .Const c, n => [(n, .Const c)]
  | .X, n => [(n, .X)]
  | .Y, n => [(n, .Y)]
  | .Z, n => [(n, .Z)]
  | .Add a b, n =>
      (nextE b (nextE a n), .Add a b) :: (tableE b (nextE a n) ++ tableE a n)
  | .Sub a b, n =>
      (nextE b (nextE a n), .Sub a b) :: (tableE b (nextE a n) ++ tableE a n)
  | .Mul a b, n =>
      (nextE b (nextE a n), .Mul a b) :: (tableE b (nextE a n) ++ tableE a n)
  | .Div a b, n =>
      (nextE b (nextE a n), .Div a b) :: (tableE b (nextE a n) ++ tableE a n)
  | .Min a b, n =>
      (nextE b (nextE a n), .Min a b) :: (tableE b (nextE a n) ++ tableE a n)
  | .Max a b, n =>
      (nextE b (nextE a n), .Max a b) :: (tableE b (nextE a n) ++ tableE a n)
  | .SMin a b k, n =>
      (nextE b (nextE a n), .SMin a b k) :: (tableE b (nextE a n) ++ tableE a n)
  | .SMax a b k, n =>
      (nextE b (nextE a n), .SMax a b k) :: (tableE b (nextE a n) ++ tableE a n)
  | .Neg a, n => (nextE a n, .Neg a) :: tableE a n
  | .Sin a, n => (nextE a n, .Sin a) :: tableE a n
  | .Cos a, n => (nextE a n, .Cos a) :: tableE a n
  | .Exp a, n => (nextE a n, .Exp a) :: tableE a n
  | .Translate a dx dy dz, n => (nextE a n, .Translate a dx dy dz) :: tableE a n
  | .RotateZ a deg, n => (nextE a n, .RotateZ a deg) :: tableE a n

/-- `walk` on any accumulator appends `emitE`, returns `rootIdE` and counts to
`nextE`. -/
theorem walk_spec (e : Expr) :
    ∀ ns n, walk e ns n = (rootIdE e n, ns ++ emitE e n, nextE e n) := by
  induction e with
  | Const c => intro ns n; rfl
  | X => intro ns n; rfl
  | Y => intro ns n; rfl
  | Z => intro ns n; rfl
  | Add a b iha ihb => intro ns n; simp [walk, iha, ihb, emitE, rootIdE, nextE]
  | Sub a b iha ihb => intro ns n; simp [walk, iha, ihb, emitE, rootIdE, nextE]
  | Mul a b iha ihb => intro ns n; simp [walk, iha, ihb, emitE, rootIdE, nextE]
  | Div a b iha ihb => intro ns n; simp [walk, iha, ihb, emitE, rootIdE, nextE]
  | Min a b iha ihb => intro ns n; simp [walk, iha, ihb, emitE, rootIdE, nextE]
  | Max a b iha ihb => intro ns n; simp [walk, iha, ihb, emitE, rootIdE, nextE]
  | SMin a b k iha ihb => intro ns n; simp [walk, iha, ihb, emitE, rootIdE, nextE]
  | SMax a b k iha ihb => intro ns n; simp [walk, iha, ihb, emitE, rootIdE, nextE]
  | Neg a iha => intro ns n; simp [walk, iha, emitE, rootIdE, nextE]
  | Sin a iha => intro ns n; simp [walk, iha, emitE, rootIdE, nextE]
  | Cos a iha => intro ns n; simp [walk, iha, emitE, rootIdE, nextE]
  | Exp a iha => intro ns n; simp [walk, iha, emitE, rootIdE, nextE]
  | Translate a dx dy dz iha => intro ns n; simp [walk, iha, emitE, rootIdE, nextE]
  | RotateZ a deg iha => intro ns n; simp [walk, iha, emitE, rootIdE, nextE]

/-- The counter strictly advances. -/
theorem lt_nextE (e : Expr) : ∀ n, n < nextE e n := by
  induction e with
  | Const c => intro n; simp [nextE]
  | X => intro n; simp [nextE]
  | Y => intro n; simp [nextE]
  | Z => intro n; simp [nextE]
  | Add a b iha ihb => intro n; have := iha n; have := ihb (nextE a n); simp [nextE]; omega
  | Sub a b iha ihb => intro n; have := iha n; have := ihb (nextE a n); simp [nextE]; omega
  | Mul a b iha ihb => intro n; have := iha n; have := ihb (nextE a n); simp [nextE]; omega
  | Div a b iha ihb => intro n; have := iha n; have := ihb (nextE a n); simp [nextE]; omega
  | Min a b iha ihb => intro n; have := iha n; have := ihb (nextE a n); simp [nextE]; omega
  | Max a b iha ihb => intro n; have := iha n; have := ihb (nextE a n); simp [nextE]; omega
  | SMin a b k iha ihb => intro n; have := iha n; have := ihb (nextE a n); simp [nextE]; omega
  | SMax a b k iha ihb => intro n; have := iha n; have := ihb (nextE a n); simp [nextE]; omega
  | Neg a iha => intro n; have := iha n; simp [nextE]; omega
  | Sin a iha => intro n; have := iha n; simp [nextE]; omega
  | Cos a iha => intro n; have := iha n; simp [nextE]; omega
  | Exp a iha => intro n; have := iha n; simp [nextE]; omega
  | Translate a dx dy dz iha => intro n; have := iha n; simp [nextE]; omega
  | RotateZ a deg iha => intro n; have := iha n; simp [nextE]; omega

/-- The root id lies in the id range consumed by the walk. -/
theorem rootIdE_bounds (e : Expr) (n : ℕ) :
    n ≤ rootIdE e n ∧ rootIdE e n < nextE e n := by
  cases e with
  | Const c => simp [rootIdE, nextE]
  | X => simp [rootIdE, nextE]
  | Y => simp [rootIdE, nextE]
  | Z => simp [rootIdE, nextE]
  | Add a b =>
      have h1 := lt_nextE a n; have h2 := lt_nextE b (nextE a n)
      simp [rootIdE, nextE]; omega
  | Sub a b =>
      have h1 := lt_nextE a n; have h2 := lt_nextE b (nextE a n)
      simp [rootIdE, nextE]; omega
  | Mul a b =>
      have h1 := lt_nextE a n; have h2 := lt_nextE b (nextE a n)
      simp [rootIdE, nextE]; omega
  | Div a b =>
      have h1 := lt_nextE a n; have h2 := lt_nextE b (nextE a n)
      simp [rootIdE, nextE]; omega
  | Min a b =>
      have h1 := lt_nextE a n; have h2 := lt_nextE b (nextE a n)
      simp [rootIdE, nextE]; omega
  | Max a b =>
      have h1 := lt_nextE a n; have h2 := lt_nextE b (nextE a n)
      simp [rootIdE, nextE]; omega
  | SMin a b k =>
      have h1 := lt_nextE a n; have h2 := lt_nextE b (nextE a n)
      simp [rootIdE, nextE]; omega
  | SMax a b k =>
      have h1 := lt_nextE a n; have h2 := lt_nextE b (nextE a n)
      simp [rootIdE, nextE]; omega
  | Neg a => have h1 := lt_nextE a n; simp [rootIdE, nextE]; omega
  | Sin a => have h1 := lt_nextE a n; simp [rootIdE, nextE]; omega
  | Cos a => have h1 := lt_nextE a n; simp [rootIdE, nextE]; omega
  | Exp a => have h1 := lt_nextE a n; simp [rootIdE, nextE]; omega
  | Translate a dx dy dz => have h1 := lt_nextE a n; simp [rootIdE, nextE]; omega
  | RotateZ a deg => have h1 := lt_nextE a n; simp [rootIdE, nextE]; omega

/-- Appending consecutive ranges. -/
theorem range'_append' (s m k : ℕ) :
    List.range' s m ++ List.range' (s + m) k = List.range' s (m + k) := by
  simpa [Nat.add_comm] using List.range'_append s m k 1

/-- Assembling the id list of a binary node's emission. -/
theorem map_id_build (A B : List TopologyNode) (nd : TopologyNode) (n : ℕ)
    (hA : A.map TopologyNode.id = List.range' n A.length)
    (hB : B.map TopologyNode.id = List.range' (n + A.length) B.length)
    (hnd : nd.id = n + A.length + B.length) :
    (A ++ (B ++ [nd])).map TopologyNode.id =
      List.range' n (A ++ (B ++ [nd])).length := by
  simp only [List.map_append, List.map_cons, List.map_nil, List.length_append,
    List.length_cons, List.length_nil]
  rw [hA, hB, hnd,
    show (A.length + (B.length + (0 + 1))) = A.length + (B.length + 1) by omega,
    ← range'_append' n A.length (B.length + 1),
    ← range'_append' (n + A.length) B.length 1]
  simp

/-- Assembling the id list of a unary node's emission. -/
theorem map_id_build1 (A : List TopologyNode) (nd : TopologyNode) (n : ℕ)
    (hA : A.map TopologyNode.id = List.range' n A.length)
    (hnd : nd.id = n + A.length) :
    (A ++ [nd]).map TopologyNode.id = List.range' n (A ++ [nd]).length := by
  simp only [List.map_append, List.map_cons, List.map_nil, List.length_append,
    List.length_cons, List.length_nil]
  rw [hA, hnd, show (A.length + (0 + 1)) = A.length + 1 by omega,
    ← range'_append' n A.length 1]
  simp

/-- The number of emitted nodes accounts exactly for the consumed counter
range. -/
theorem emitE_len (e : Expr) : ∀ n, n + (emitE e n).length = nextE e n := by
  induction e with
  | Const c => intro n; simp [emitE, nextE]
  | X => intro n; simp [emitE, nextE]
  | Y => intro n; simp [emitE, nextE]
  | Z => intro n; simp [emitE, nextE]
  | Add a b iha ihb =>
      intro n
      have h1 := iha n
      have h2 := ihb (nextE a n)
      simp only [emitE, nextE, List.length_append, List.length_cons, List.length_nil]
      omega
  | Sub a b iha ihb =>
      intro n
      have h1 := iha n
      have h2 := ihb (nextE a n)
      simp only [emitE, nextE, List.length_append, List.length_cons, List.length_nil]
      omega
  | Mul a b iha ihb =>
      intro n
      have h1 := iha n
      have h2 := ihb (nextE a n)
      simp only [emitE, nextE, List.length_append, List.length_cons, List.length_nil]
      omega
  | Div a b iha ihb =>
      intro n
      have h1 := iha n
      have h2 := ihb (nextE a n)
      simp only [emitE, nextE, List.length_append, List.length_cons, List.length_nil]
      omega
  | Min a b iha ihb =>
      intro n
      have h1 := iha n
      have h2 := ihb (nextE a n)
      simp only [emitE, nextE, List.length_append, List.length_cons, List.length_nil]
      omega
  | Max a b iha ihb =>
      intro n
      have h1 := iha n
      have h2 := ihb (nextE a n)
      simp only [emitE, nextE, List.length_append, List.length_cons, List.length_nil]
      omega
  | SMin a b k iha ihb =>
      intro n
      have h1 := iha n
      have h2 := ihb (nextE a n)
      simp only [emitE, nextE, List.length_append, List.length_cons, List.length_nil]
      omega
  | SMax a b k iha ihb =>
      intro n
      have h1 := iha n
      have h2 := ihb (nextE a n)
      simp only [emitE, nextE, List.length_append, List.length_cons, List.length_nil]
      omega
  | Neg a iha =>
      intro n
      have h1 := iha n
      simp only [emitE, nextE, List.length_append, List.length_cons, List.length_nil]
      omega
  | Sin a iha =>
      intro n
      have h1 := iha n
      simp only [emitE, nextE, List.length_append, List.length_cons, List.length_nil]
      omega
  | Cos a iha =>
      intro n
      have h1 := iha n
      simp only [emitE, nextE, List.length_append, List.length_cons, List.length_nil]
      omega
  | Exp a iha =>
      intro n
      have h1 := iha n
      simp only [emitE, nextE, List.length_append, List.length_cons, List.length_nil]
      omega
  | Translate a dx dy dz iha =>
      intro n
      have h1 := iha n
      simp only [emitE, nextE, List.length_append, List.length_cons, List.length_nil]
      omega
  | RotateZ a deg iha =>
      intro n
      have h1 := iha n
      simp only [emitE, nextE, List.length_append, List.length_cons, List.length_nil]
      omega

/-- The emitted ids are `n, n+1, …` in listed order. -/
theorem emitE_map_id (e : Expr) : ∀ n,
    (emitE e n).map TopologyNode.id = List.range' n (emitE e n).length := by
  induction e with
  | Const c => intro n; simp [emitE]
  | X => intro n; simp [emitE]
  | Y => intro n; simp [emitE]
  | Z => intro n; simp [emitE]
  | Add a b iha ihb =>
      intro n
      have l1 := emitE_len a n
      have l2 := emitE_len b (nextE a n)
      simp only [emitE]
      refine map_id_build _ _ _ _ (iha n) ?_ ?_
      · rw [show n + (emitE a n).length = nextE a n from l1]; exact ihb (nextE a n)
      · show nextE b (nextE a n) = _
        omega
  | Sub a b iha ihb =>
      intro n
      have l1 := emitE_len a n
      have l2 := emitE_len b (nextE a n)
      simp only [emitE]
      refine map_id_build _ _ _ _ (iha n) ?_ ?_
      · rw [show n + (emitE a n).length = nextE a n from l1]; exact ihb (nextE a n)
      · show nextE b (nextE a n) = _
        omega
  | Mul a b iha ihb =>
      intro n
      have l1 := emitE_len a n
      have l2 := emitE_len b (nextE a n)
      simp only [emitE]
      refine map_id_build _ _ _ _ (iha n) ?_ ?_
      · rw [show n + (emitE a n).length = nextE a n from l1]; exact ihb (nextE a n)
      · show nextE b (nextE a n) = _
        omega
  | Div a b iha ihb =>
      intro n
      have l1 := emitE_len a n
      have l2 := emitE_len b (nextE a n)
      simp only [emitE]
      refine map_id_build _ _ _ _ (iha n) ?_ ?_
      · rw [show n + (emitE a n).length = nextE a n from l1]; exact ihb (nextE a n)
      · show nextE b (nextE a n) = _
        omega
  | Min a b iha ihb =>
      intro n
      have l1 := emitE_len a n
      have l2 := emitE_len b (nextE a n)
      simp only [emitE]
      refine map_id_build _ _ _ _ (iha n) ?_ ?_
      · rw [show n + (emitE a n).length = nextE a n from l1]; exact ihb (nextE a n)
      · show nextE b (nextE a n) = _
        omega
  | Max a b iha ihb =>
      intro n
      have l1 := emitE_len a n
      have l2 := emitE_len b (nextE a n)
      simp only [emitE]
      refine map_id_build _ _ _ _ (iha n) ?_ ?_
      · rw [show n + (emitE a n).length = nextE a n from l1]; exact ihb (nextE a n)
      · show nextE b (nextE a n) = _
        omega
  | SMin a b k iha ihb =>
      intro n
      have l1 := emitE_len a n
      have l2 := emitE_len b (nextE a n)
      simp only [emitE]
      refine map_id_build _ _ _ _ (iha n) ?_ ?_
      · rw [show n + (emitE a n).length = nextE a n from l1]; exact ihb (nextE a n)
      · show nextE b (nextE a n) = _
        omega
  | SMax a b k iha ihb =>
      intro n
      have l1 := emitE_len a n
      have l2 := emitE_len b (nextE a n)
      simp only [emitE]
      refine map_id_build _ _ _ _ (iha n) ?_ ?_
      · rw [show n + (emitE a n).length = nextE a n from l1]; exact ihb (nextE a n)
      · show nextE b (nextE a n) = _
        omega
  | Neg a iha =>
      intro n
      have l1 := emitE_len a n
      simp only [emitE]
      refine map_id_build1 _ _ _ (iha n) ?_
      show nextE a n = _
      omega
  | Sin a iha =>
      intro n
      have l1 := emitE_len a n
      simp only [emitE]
      refine map_id_build1 _ _ _ (iha n) ?_
      show nextE a n = _
      omega
  | Cos a iha =>
      intro n
      have l1 := emitE_len a n
      simp only [emitE]
      refine map_id_build1 _ _ _ (iha n) ?_
      show nextE a n = _
      omega
  | Exp a iha =>
      intro n
      have l1 := emitE_len a n
      simp only [emitE]
      refine map_id_build1 _ _ _ (iha n) ?_
      show nextE a n = _
      omega
  | Translate a dx dy dz iha =>
      intro n
      have l1 := emitE_len a n
      simp only [emitE]
      refine map_id_build1 _ _ _ (iha n) ?_
      show nextE a n = _
      omega
  | RotateZ a deg iha =>
      intro n
      have l1 := emitE_len a n
      simp only [emitE]
      refine map_id_build1 _ _ _ (iha n) ?_
      show nextE a n = _
      omega

/-- Every input id of an emitted node lies in the consumed range and is
strictly below the node's own id. -/
theorem emitE_inputs (e : Expr) : ∀ n, ∀ node ∈ emitE e n, ∀ i ∈ node.inputs,
    n ≤ i ∧ i < node.id := by
  induction e with
  | Const c =>
      intro n node hn i hi
      simp only [emitE, List.mem_singleton] at hn
      subst hn
      simp at hi
  | X =>
      intro n node hn i hi
      simp only [emitE, List.mem_singleton] at hn
      subst hn
      simp at hi
  | Y =>
      intro n node hn i hi
      simp only [emitE, List.mem_singleton] at hn
      subst hn
      simp at hi
  | Z =>
      intro n node hn i hi
      simp only [emitE, List.mem_singleton] at hn
      subst hn
      simp at hi
  | Add a b iha ihb =>
      intro n node hn i hi
      simp only [emitE, List.mem_append, List.mem_singleton] at hn
      have hlt := lt_nextE a n
      rcases hn with h | h | h
      · exact iha n node h i hi
      · have hr := ihb (nextE a n) node h i hi
        exact ⟨by omega, hr.2⟩
      · subst h
        have hb1 := rootIdE_bounds a n
        have hb2 := rootIdE_bounds b (nextE a n)
        have hlt2 := lt_nextE b (nextE a n)
        simp only [List.mem_cons, List.not_mem_nil, or_false, List.mem_singleton] at hi
        rcases hi with rfl | rfl
        · exact ⟨by omega, by show _ < nextE b (nextE a n); omega⟩
        · exact ⟨by omega, by show _ < nextE b (nextE a n); omega⟩
  | Sub a b iha ihb =>
      intro n node hn i hi
      simp only [emitE, List.mem_append, List.mem_singleton] at hn
      have hlt := lt_nextE a n
      rcases hn with h | h | h
      · exact iha n node h i hi
      · have hr := ihb (nextE a n) node h i hi
        exact ⟨by omega, hr.2⟩
      · subst h
        have hb1 := rootIdE_bounds a n
        have hb2 := rootIdE_bounds b (nextE a n)
        have hlt2 := lt_nextE b (nextE a n)
        simp only [List.mem_cons, List.not_mem_nil, or_false, List.mem_singleton] at hi
        rcases hi with rfl | rfl
        · exact ⟨by omega, by show _ < nextE b (nextE a n); omega⟩
        · exact ⟨by omega, by show _ < nextE b (nextE a n); omega⟩
  | Mul a b iha ihb =>
      intro n node hn i hi
      simp only [emitE, List.mem_append, List.mem_singleton] at hn
      have hlt := lt_nextE a n
      rcases hn with h | h | h
      · exact iha n node h i hi
      · have hr := ihb (nextE a n) node h i hi
        exact ⟨by omega, hr.2⟩
      · subst h
        have hb1 := rootIdE_bounds a n
        have hb2 := rootIdE_bounds b (nextE a n)
        have hlt2 := lt_nextE b (nextE a n)
        simp only [List.mem_cons, List.not_mem_nil, or_false, List.mem_singleton] at hi
        rcases hi with rfl | rfl
        · exact ⟨by omega, by show _ < nextE b (nextE a n); omega⟩
        · exact ⟨by omega, by show _ < nextE b (nextE a n); omega⟩
  | Div a b iha ihb =>
      intro n node hn i hi
      simp only [emitE, List.mem_append, List.mem_singleton] at hn
      have hlt := lt_nextE a n
      rcases hn with h | h | h
      · exact iha n node h i hi
      · have hr := ihb (nextE a n) node h i hi
        exact ⟨by omega, hr.2⟩
      · subst h
        have hb1 := rootIdE_bounds a n
        have hb2 := rootIdE_bounds b (nextE a n)
        have hlt2 := lt_nextE b (nextE a n)
        simp only [List.mem_cons, List.not_mem_nil, or_false, List.mem_singleton] at hi
        rcases hi with rfl | rfl
        · exact ⟨by omega, by show _ < nextE b (nextE a n); omega⟩
        · exact ⟨by omega, by show _ < nextE b (nextE a n); omega⟩
  | Min a b iha ihb =>
      intro n node hn i hi
      simp only [emitE, List.mem_append, List.mem_singleton] at hn
      have hlt := lt_nextE a n
      rcases hn with h | h | h
      · exact iha n node h i hi
      · have hr := ihb (nextE a n) node h i hi
        exact ⟨by omega, hr.2⟩
      · subst h
        have hb1 := rootIdE_bounds a n
        have hb2 := rootIdE_bounds b (nextE a n)
        have hlt2 := lt_nextE b (nextE a n)
        simp only [List.mem_cons, List.not_mem_nil, or_false, List.mem_singleton] at hi
        rcases hi with rfl | rfl
        · exact ⟨by omega, by show _ < nextE b (nextE a n); omega⟩
        · exact ⟨by omega, by show _ < nextE b (nextE a n); omega⟩
  | Max a b iha ihb =>
      intro n node hn i hi
      simp only [emitE, List.mem_append, List.mem_singleton] at hn
      have hlt := lt_nextE a n
      rcases hn with h | h | h
      · exact iha n node h i hi
      · have hr := ihb (nextE a n) node h i hi
        exact ⟨by omega, hr.2⟩
      · subst h
        have hb1 := rootIdE_bounds a n
        have hb2 := rootIdE_bounds b (nextE a n)
        have hlt2 := lt_nextE b (nextE a n)
        simp only [List.mem_cons, List.not_mem_nil, or_false, List.mem_singleton] at hi
        rcases hi with rfl | rfl
        · exact ⟨by omega, by show _ < nextE b (nextE a n); omega⟩
        · exact ⟨by omega, by show _ < nextE b (nextE a n); omega⟩
  | SMin a b k iha ihb =>
      intro n node hn i hi
      simp only [emitE, List.mem_append, List.mem_singleton] at hn
      have hlt := lt_nextE a n
      rcases hn with h | h | h
      · exact iha n node h i hi
      · have hr := ihb (nextE a n) node h i hi
        exact ⟨by omega, hr.2⟩
      · subst h
        have hb1 := rootIdE_bounds a n
        have hb2 := rootIdE_bounds b (nextE a n)
        have hlt2 := lt_nextE b (nextE a n)
        simp only [List.mem_cons, List.not_mem_nil, or_false, List.mem_singleton] at hi
        rcases hi with rfl | rfl
        · exact ⟨by omega, by show _ < nextE b (nextE a n); omega⟩
        · exact ⟨by omega, by show _ < nextE b (nextE a n); omega⟩
  | SMax a b k iha ihb =>
      intro n node hn i hi
      simp only [emitE, List.mem_append, List.mem_singleton] at hn
      have hlt := lt_nextE a n
      rcases hn with h | h | h
      · exact iha n node h i hi
      · have hr := ihb (nextE a n) node h i hi
        exact ⟨by omega, hr.2⟩
      · subst h
        have hb1 := rootIdE_bounds a n
        have hb2 := rootIdE_bounds b (nextE a n)
        have hlt2 := lt_nextE b (nextE a n)
        simp only [List.mem_cons, List.not_mem_nil, or_false, List.mem_singleton] at hi
        rcases hi with rfl | rfl
        · exact ⟨by omega, by show _ < nextE b (nextE a n); omega⟩
        · exact ⟨by omega, by show _ < nextE b (nextE a n); omega⟩
  | Neg a iha =>
      intro n node hn i hi
      simp only [emitE, List.mem_append, List.mem_singleton] at hn
      have hlt := lt_nextE a n
      rcases hn with h | h
      · exact iha n node h i hi
      · subst h
        have hb1 := rootIdE_bounds a n
        simp only [List.mem_cons, List.not_mem_nil, or_false, List.mem_singleton] at hi
        rcases hi with rfl
        exact ⟨by omega, by show _ < nextE a n; omega⟩
  | Sin a iha =>
      intro n node hn i hi
      simp only [emitE, List.mem_append, List.mem_singleton] at hn
      have hlt := lt_nextE a n
      rcases hn with h | h
      · exact iha n node h i hi
      · subst h
        have hb1 := rootIdE_bounds a n
        simp only [List.mem_cons, List.not_mem_nil, or_false, List.mem_singleton] at hi
        rcases hi with rfl
        exact ⟨by omega, by show _ < nextE a n; omega⟩
  | Cos a iha =>
      intro n node hn i hi
      simp only [emitE, List.mem_append, List.mem_singleton] at hn
      have hlt := lt_nextE a n
      rcases hn with h | h
      · exact iha n node h i hi
      · subst h
        have hb1 := rootIdE_bounds a n
        simp only [List.mem_cons, List.not_mem_nil, or_false, List.mem_singleton] at hi
        rcases hi with rfl
        exact ⟨by omega, by show _ < nextE a n; omega⟩
  | Exp a iha =>
      intro n node hn i hi
      simp only [emitE, List.mem_append, List.mem_singleton] at hn
      have hlt := lt_nextE a n
      rcases hn with h | h
      · exact iha n node h i hi
      · subst h
        have hb1 := rootIdE_bounds a n
        simp only [List.mem_cons, List.not_mem_nil, or_false, List.mem_singleton] at hi
        rcases hi with rfl
        exact ⟨by omega, by show _ < nextE a n; omega⟩
  | Translate a dx dy dz iha =>
      intro n node hn i hi
      simp only [emitE, List.mem_append, List.mem_singleton] at hn
      have hlt := lt_nextE a n
      rcases hn with h | h
      · exact iha n node h i hi
      · subst h
        have hb1 := rootIdE_bounds a n
        simp only [List.mem_cons, List.not_mem_nil, or_false, List.mem_singleton] at hi
        rcases hi with rfl
        exact ⟨by omega, by show _ < nextE a n; omega⟩
  | RotateZ a deg iha =>
      intro n node hn i hi
      simp only [emitE, List.mem_append, List.mem_singleton] at hn
      have hlt := lt_nextE a n
      rcases hn with h | h
      · exact iha n node h i hi
      · subst h
        have hb1 := rootIdE_bounds a n
        simp only [List.mem_cons, List.not_mem_nil, or_false, List.mem_singleton] at hi
        rcases hi with rfl
        exact ⟨by omega, by show _ < nextE a n; omega⟩

/-- The last emitted node carries the root id. -/
theorem emitE_last (e : Expr) (n : ℕ) :
    ∃ l, (emitE e n).getLast? = some l ∧ l.id = rootIdE e n := by
  cases e with
  | Const c => exact ⟨_, rfl, rfl⟩
  | X => exact ⟨_, rfl, rfl⟩
  | Y => exact ⟨_, rfl, rfl⟩
  | Z => exact ⟨_, rfl, rfl⟩
  | Add a b =>
      refine ⟨⟨nextE b (nextE a n), "add", [rootIdE a n, rootIdE b (nextE a n)], []⟩, ?_, rfl⟩
      rw [show emitE (Expr.Add a b) n = (emitE a n ++ emitE b (nextE a n)) ++
        [⟨nextE b (nextE a n), "add", [rootIdE a n, rootIdE b (nextE a n)], []⟩] by
          simp [emitE]]
      exact List.getLast?_concat _
  | Sub a b =>
      refine ⟨⟨nextE b (nextE a n), "sub", [rootIdE a n, rootIdE b (nextE a n)], []⟩, ?_, rfl⟩
      rw [show emitE (Expr.Sub a b) n = (emitE a n ++ emitE b (nextE a n)) ++
        [⟨nextE b (nextE a n), "sub", [rootIdE a n, rootIdE b (nextE a n)], []⟩] by
          simp [emitE]]
      exact List.getLast?_concat _
  | Mul a b =>
      refine ⟨⟨nextE b (nextE a n), "mul", [rootIdE a n, rootIdE b (nextE a n)], []⟩, ?_, rfl⟩
      rw [show emitE (Expr.Mul a b) n = (emitE a n ++ emitE b (nextE a n)) ++
        [⟨nextE b (nextE a n), "mul", [rootIdE a n, rootIdE b (nextE a n)], []⟩] by
          simp [emitE]]
      exact List.getLast?_concat _
  | Div a b =>
      refine ⟨⟨nextE b (nextE a n), "div", [rootIdE a n, rootIdE b (nextE a n)], []⟩, ?_, rfl⟩
      rw [show emitE (Expr.Div a b) n = (emitE a n ++ emitE b (nextE a n)) ++
        [⟨nextE b (nextE a n), "div", [rootIdE a n, rootIdE b (nextE a n)], []⟩] by
          simp [emitE]]
      exact List.getLast?_concat _
  | Min a b =>
      refine ⟨⟨nextE b (nextE a n), "min", [rootIdE a n, rootIdE b (nextE a n)], []⟩, ?_, rfl⟩
      rw [show emitE (Expr.Min a b) n = (emitE a n ++ emitE b (nextE a n)) ++
        [⟨nextE b (nextE a n), "min", [rootIdE a n, rootIdE b (nextE a n)], []⟩] by
          simp [emitE]]
      exact List.getLast?_concat _
  | Max a b =>
      refine ⟨⟨nextE b (nextE a n), "max", [rootIdE a n, rootIdE b (nextE a n)], []⟩, ?_, rfl⟩
      rw [show emitE (Expr.Max a b) n = (emitE a n ++ emitE b (nextE a n)) ++
        [⟨nextE b (nextE a n), "max", [rootIdE a n, rootIdE b (nextE a n)], []⟩] by
          simp [emitE]]
      exact List.getLast?_concat _
  | SMin a b k =>
      refine ⟨⟨nextE b (nextE a n), "smin", [rootIdE a n, rootIdE b (nextE a n)], [("k", k)]⟩, ?_, rfl⟩
      rw [show emitE (Expr.SMin a b k) n = (emitE a n ++ emitE b (nextE a n)) ++
        [⟨nextE b (nextE a n), "smin", [rootIdE a n, rootIdE b (nextE a n)], [("k", k)]⟩] by
          simp [emitE]]
      exact List.getLast?_concat _
  | SMax a b k =>
      refine ⟨⟨nextE b (nextE a n), "smax", [rootIdE a n, rootIdE b (nextE a n)], [("k", k)]⟩, ?_, rfl⟩
      rw [show emitE (Expr.SMax a b k) n = (emitE a n ++ emitE b (nextE a n)) ++
        [⟨nextE b (nextE a n), "smax", [rootIdE a n, rootIdE b (nextE a n)], [("k", k)]⟩] by
          simp [emitE]]
      exact List.getLast?_concat _
  | Neg a =>
      refine ⟨⟨nextE a n, "neg", [rootIdE a n], []⟩, ?_, rfl⟩
      rw [show emitE (Expr.Neg a) n = emitE a n ++
        [⟨nextE a n, "neg", [rootIdE a n], []⟩] from rfl]
      exact List.getLast?_concat _
  | Sin a =>
      refine ⟨⟨nextE a n, "sin", [rootIdE a n], []⟩, ?_, rfl⟩
      rw [show emitE (Expr.Sin a) n = emitE a n ++
        [⟨nextE a n, "sin", [rootIdE a n], []⟩] from rfl]
      exact List.getLast?_concat _
  | Cos a =>
      refine ⟨⟨nextE a n, "cos", [rootIdE a n], []⟩, ?_, rfl⟩
      rw [show emitE (Expr.Cos a) n = emitE a n ++
        [⟨nextE a n, "cos", [rootIdE a n], []⟩] from rfl]
      exact List.getLast?_concat _
  | Exp a =>
      refine ⟨⟨nextE a n, "exp", [rootIdE a n], []⟩, ?_, rfl⟩
      rw [show emitE (Expr.Exp a) n = emitE a n ++
        [⟨nextE a n, "exp", [rootIdE a n], []⟩] from rfl]
      exact List.getLast?_concat _
  | Translate a dx dy dz =>
      refine ⟨⟨nextE a n, "translate", [rootIdE a n], [("dx", dx), ("dy", dy), ("dz", dz)]⟩, ?_, rfl⟩
      rw [show emitE (Expr.Translate a dx dy dz) n = emitE a n ++
        [⟨nextE a n, "translate", [rootIdE a n], [("dx", dx), ("dy", dy), ("dz", dz)]⟩] from rfl]
      exact List.getLast?_concat _
  | RotateZ a deg =>
      refine ⟨⟨nextE a n, "rotate_z", [rootIdE a n], [("deg", deg)]⟩, ?_, rfl⟩
      rw [show emitE (Expr.RotateZ a deg) n = emitE a n ++
        [⟨nextE a n, "rotate_z", [rootIdE a n], [("deg", deg)]⟩] from rfl]
      exact List.getLast?_concat _

/-- Every key in the decoder table built from `emitE e n` lies in the
consumed counter range. -/
theorem tableE_keys (e : Expr) : ∀ n, ∀ p ∈ tableE e n,
    n ≤ p.1 ∧ p.1 < nextE e n := by
  induction e with
  | Const c =>
      intro n p hp
      simp only [tableE, List.mem_singleton] at hp
      subst hp
      simp [nextE]
  | X =>
      intro n p hp
      simp only [tableE, List.mem_singleton] at hp
      subst hp
      simp [nextE]
  | Y =>
      intro n p hp
      simp only [tableE, List.mem_singleton] at hp
      subst hp
      simp [nextE]
  | Z =>
      intro n p hp
      simp only [tableE, List.mem_singleton] at hp
      subst hp
      simp [nextE]
  | Add a b iha ihb =>
      intro n p hp
      have hlt := lt_nextE a n
      have hlt2 := lt_nextE b (nextE a n)
      simp only [tableE, List.mem_cons, List.mem_append] at hp
      rcases hp with rfl | h | h
      · simp only [nextE]; omega
      · have := ihb (nextE a n) p h
        simp only [nextE]; omega
      · have := iha n p h
        simp only [nextE]; omega
  | Sub a b iha ihb =>
      intro n p hp
      have hlt := lt_nextE a n
      have hlt2 := lt_nextE b (nextE a n)
      simp only [tableE, List.mem_cons, List.mem_append] at hp
      rcases hp with rfl | h | h
      · simp only [nextE]; omega
      · have := ihb (nextE a n) p h
        simp only [nextE]; omega
      · have := iha n p h
        simp only [nextE]; omega
  | Mul a b iha ihb =>
      intro n p hp
      have hlt := lt_nextE a n
      have hlt2 := lt_nextE b (nextE a n)
      simp only [tableE, List.mem_cons, List.mem_append] at hp
      rcases hp with rfl | h | h
      · simp only [nextE]; omega
      · have := ihb (nextE a n) p h
        simp only [nextE]; omega
      · have := iha n p h
        simp only [nextE]; omega
  | Div a b iha ihb =>
      intro n p hp
      have hlt := lt_nextE a n
      have hlt2 := lt_nextE b (nextE a n)
      simp only [tableE, List.mem_cons, List.mem_append] at hp
      rcases hp with rfl | h | h
      · simp only [nextE]; omega
      · have := ihb (nextE a n) p h
        simp only [nextE]; omega
      · have := iha n p h
        simp only [nextE]; omega
  | Min a b iha ihb =>
      intro n p hp
      have hlt := lt_nextE a n
      have hlt2 := lt_nextE b (nextE a n)
      simp only [tableE, List.mem_cons, List.mem_append] at hp
      rcases hp with rfl | h | h
      · simp only [nextE]; omega
      · have := ihb (nextE a n) p h
        simp only [nextE]; omega
      · have := iha n p h
        simp only [nextE]; omega
  | Max a b iha ihb =>
      intro n p hp
      have hlt := lt_nextE a n
      have hlt2 := lt_nextE b (nextE a n)
      simp only [tableE, List.mem_cons, List.mem_append] at hp
      rcases hp with rfl | h | h
      · simp only [nextE]; omega
      · have := ihb (nextE a n) p h
        simp only [nextE]; omega
      · have := iha n p h
        simp only [nextE]; omega
  | SMin a b k iha ihb =>
      intro n p hp
      have hlt := lt_nextE a n
      have hlt2 := lt_nextE b (nextE a n)
      simp only [tableE, List.mem_cons, List.mem_append] at hp
      rcases hp with rfl | h | h
      · simp only [nextE]; omega
      · have := ihb (nextE a n) p h
        simp only [nextE]; omega
      · have := iha n p h
        simp only [nextE]; omega
  | SMax a b k iha ihb =>
      intro n p hp
      have hlt := lt_nextE a n
      have hlt2 := lt_nextE b (nextE a n)
      simp only [tableE, List.mem_cons, List.mem_append] at hp
      rcases hp with rfl | h | h
      · simp only [nextE]; omega
      · have := ihb (nextE a n) p h
        simp only [nextE]; omega
      · have := iha n p h
        simp only [nextE]; omega
  | Neg a iha =>
      intro n p hp
      have hlt := lt_nextE a n
      simp only [tableE, List.mem_cons] at hp
      rcases hp with rfl | h
      · simp only [nextE]; omega
      · have := iha n p h
        simp only [nextE]; omega
  | Sin a iha =>
      intro n p hp
      have hlt := lt_nextE a n
      simp only [tableE, List.mem_cons] at hp
      rcases hp with rfl | h
      · simp only [nextE]; omega
      · have := iha n p h
        simp only [nextE]; omega
  | Cos a iha =>
      intro n p hp
      have hlt := lt_nextE a n
      simp only [tableE, List.mem_cons] at hp
      rcases hp with rfl | h
      · simp only [nextE]; omega
      · have := iha n p h
        simp only [nextE]; omega
  | Exp a iha =>
      intro n p hp
      have hlt := lt_nextE a n
      simp only [tableE, List.mem_cons] at hp
      rcases hp with rfl | h
      · simp only [nextE]; omega
      · have := iha n p h
        simp only [nextE]; omega
  | Translate a dx dy dz iha =>
      intro n p hp
      have hlt := lt_nextE a n
      simp only [tableE, List.mem_cons] at hp
      rcases hp with rfl | h
      · simp only [nextE]; omega
      · have := iha n p h
        simp only [nextE]; omega
  | RotateZ a deg iha =>
      intro n p hp
      have hlt := lt_nextE a n
      simp only [tableE, List.mem_cons] at hp
      rcases hp with rfl | h
      · simp only [nextE]; omega
      · have := iha n p h
        simp only [nextE]; omega

/-- Lookup skips a prefix containing no binding for the key. -/
theorem lookupId_append_right (k : ℕ) (L M : List (ℕ × Expr))
    (h : ∀ p ∈ L, p.1 ≠ k) : lookupId k (L ++ M) = lookupId k M := by
  induction L with
  | nil => rfl
  | cons q t ih =>
      obtain ⟨i, e⟩ := q
      have hik : i ≠ k := h (i, e) (by simp)
      simp only [List.cons_append, lookupId, if_neg hik]
      exact ih fun p hp => h p (by simp [hp])

/-- The decoder table for an expression resolves the expression's root id to
the expression itself (the root binding is the most recent insertion). -/
theorem lookupId_table (e : Expr) (n : ℕ) (M : List (ℕ × Expr)) :
    lookupId (rootIdE e n) (tableE e n ++ M) = some e := by
  cases e with
  | Const c => simp [tableE, rootIdE, lookupId]
  | X => simp [tableE, rootIdE, lookupId]
  | Y => simp [tableE, rootIdE, lookupId]
  | Z => simp [tableE, rootIdE, lookupId]
  | Add a b => simp [tableE, rootIdE, lookupId]
  | Sub a b => simp [tableE, rootIdE, lookupId]
  | Mul a b => simp [tableE, rootIdE, lookupId]
  | Div a b => simp [tableE, rootIdE, lookupId]
  | Min a b => simp [tableE, rootIdE, lookupId]
  | Max a b => simp [tableE, rootIdE, lookupId]
  | SMin a b k => simp [tableE, rootIdE, lookupId]
  | SMax a b k => simp [tableE, rootIdE, lookupId]
  | Neg a => simp [tableE, rootIdE, lookupId]
  | Sin a => simp [tableE, rootIdE, lookupId]
  | Cos a => simp [tableE, rootIdE, lookupId]
  | Exp a => simp [tableE, rootIdE, lookupId]
  | Translate a dx dy dz => simp [tableE, rootIdE, lookupId]
  | RotateZ a deg => simp [tableE, rootIdE, lookupId]

/-- Decoding the emission of `e` at counter `n` in front of any remaining
nodes succeeds and extends the table with exactly `tableE e n`. -/
theorem decode_sim (e : Expr) : ∀ n T rest,
    decodeNodes (emitE e n ++ rest) T = decodeNodes rest (tableE e n ++ T) := by
  induction e with
  | Const c => intro n T rest; rfl
  | X => intro n T rest; rfl
  | Y => intro n T rest; rfl
  | Z => intro n T rest; rfl
  | Add a b iha ihb =>
      intro n T rest
      have htbla : lookupId (rootIdE a n)
          (tableE b (nextE a n) ++ (tableE a n ++ T)) = some a := by
        rw [lookupId_append_right]
        · exact lookupId_table a n T
        · intro p hp
          have hk := tableE_keys b (nextE a n) p hp
          have hb := rootIdE_bounds a n
          omega
      have htblb : lookupId (rootIdE b (nextE a n))
          (tableE b (nextE a n) ++ (tableE a n ++ T)) = some b :=
        lookupId_table b (nextE a n) (tableE a n ++ T)
      have hget : get2 "add" (tableE b (nextE a n) ++ (tableE a n ++ T))
          [rootIdE a n, rootIdE b (nextE a n)] = .ok (a, b) := by
        simp [get2, get1, htbla, htblb]; rfl
      have hdn : decodeNode
          ⟨nextE b (nextE a n), "add", [rootIdE a n, rootIdE b (nextE a n)], []⟩
          (tableE b (nextE a n) ++ (tableE a n ++ T)) = some (.ok (Expr.Add a b)) := by
        simp [decodeNode, getParam, hget]
      calc decodeNodes (emitE (Expr.Add a b) n ++ rest) T
          = decodeNodes (emitE a n ++ (emitE b (nextE a n) ++
              (⟨nextE b (nextE a n), "add",
                [rootIdE a n, rootIdE b (nextE a n)], []⟩ :: rest))) T := by
            simp [emitE]
        _ = decodeNodes (emitE b (nextE a n) ++
              (⟨nextE b (nextE a n), "add",
                [rootIdE a n, rootIdE b (nextE a n)], []⟩ :: rest))
              (tableE a n ++ T) := iha n T _
        _ = decodeNodes
              (⟨nextE b (nextE a n), "add",
                [rootIdE a n, rootIdE b (nextE a n)], []⟩ :: rest)
              (tableE b (nextE a n) ++ (tableE a n ++ T)) :=
            ihb (nextE a n) (tableE a n ++ T) _
        _ = decodeNodes rest (tableE (Expr.Add a b) n ++ T) := by
            simp [decodeNodes, hdn, tableE]
  | Sub a b iha ihb =>
      intro n T rest
      have htbla : lookupId (rootIdE a n)
          (tableE b (nextE a n) ++ (tableE a n ++ T)) = some a := by
        rw [lookupId_append_right]
        · exact lookupId_table a n T
        · intro p hp
          have hk := tableE_keys b (nextE a n) p hp
          have hb := rootIdE_bounds a n
          omega
      have htblb : lookupId (rootIdE b (nextE a n))
          (tableE b (nextE a n) ++ (tableE a n ++ T)) = some b :=
        lookupId_table b (nextE a n) (tableE a n ++ T)
      have hget : get2 "sub" (tableE b (nextE a n) ++ (tableE a n ++ T))
          [rootIdE a n, rootIdE b (nextE a n)] = .ok (a, b) := by
        simp [get2, get1, htbla, htblb]; rfl
      have hdn : decodeNode
          ⟨nextE b (nextE a n), "sub", [rootIdE a n, rootIdE b (nextE a n)], []⟩
          (tableE b (nextE a n) ++ (tableE a n ++ T)) = some (.ok (Expr.Sub a b)) := by
        simp [decodeNode, getParam, hget]
      calc decodeNodes (emitE (Expr.Sub a b) n ++ rest) T
          = decodeNodes (emitE a n ++ (emitE b (nextE a n) ++
              (⟨nextE b (nextE a n), "sub",
                [rootIdE a n, rootIdE b (nextE a n)], []⟩ :: rest))) T := by
            simp [emitE]
        _ = decodeNodes (emitE b (nextE a n) ++
              (⟨nextE b (nextE a n), "sub",
                [rootIdE a n, rootIdE b (nextE a n)], []⟩ :: rest))
              (tableE a n ++ T) := iha n T _
        _ = decodeNodes
              (⟨nextE b (nextE a n), "sub",
                [rootIdE a n, rootIdE b (nextE a n)], []⟩ :: rest)
              (tableE b (nextE a n) ++ (tableE a n ++ T)) :=
            ihb (nextE a n) (tableE a n ++ T) _
        _ = decodeNodes rest (tableE (Expr.Sub a b) n ++ T) := by
            simp [decodeNodes, hdn, tableE]
  | Mul a b iha ihb =>
      intro n T rest
      have htbla : lookupId (rootIdE a n)
          (tableE b (nextE a n) ++ (tableE a n ++ T)) = some a := by
        rw [lookupId_append_right]
        · exact lookupId_table a n T
        · intro p hp
          have hk := tableE_keys b (nextE a n) p hp
          have hb := rootIdE_bounds a n
          omega
      have htblb : lookupId (rootIdE b (nextE a n))
          (tableE b (nextE a n) ++ (tableE a n ++ T)) = some b :=
        lookupId_table b (nextE a n) (tableE a n ++ T)
      have hget : get2 "mul" (tableE b (nextE a n) ++ (tableE a n ++ T))
          [rootIdE a n, rootIdE b (nextE a n)] = .ok (a, b) := by
        simp [get2, get1, htbla, htblb]; rfl
      have hdn : decodeNode
          ⟨nextE b (nextE a n), "mul", [rootIdE a n, rootIdE b (nextE a n)], []⟩
          (tableE b (nextE a n) ++ (tableE a n ++ T)) = some (.ok (Expr.Mul a b)) := by
        simp [decodeNode, getParam, hget]
      calc decodeNodes (emitE (Expr.Mul a b) n ++ rest) T
          = decodeNodes (emitE a n ++ (emitE b (nextE a n) ++
              (⟨nextE b (nextE a n), "mul",
                [rootIdE a n, rootIdE b (nextE a n)], []⟩ :: rest))) T := by
            simp [emitE]
        _ = decodeNodes (emitE b (nextE a n) ++
              (⟨nextE b (nextE a n), "mul",
                [rootIdE a n, rootIdE b (nextE a n)], []⟩ :: rest))
              (tableE a n ++ T) := iha n T _
        _ = decodeNodes
              (⟨nextE b (nextE a n), "mul",
                [rootIdE a n, rootIdE b (nextE a n)], []⟩ :: rest)
              (tableE b (nextE a n) ++ (tableE a n ++ T)) :=
            ihb (nextE a n) (tableE a n ++ T) _
        _ = decodeNodes rest (tableE (Expr.Mul a b) n ++ T) := by
            simp [decodeNodes, hdn, tableE]
  | Div a b iha ihb =>
      intro n T rest
      have htbla : lookupId (rootIdE a n)
          (tableE b (nextE a n) ++ (tableE a n ++ T)) = some a := by
        rw [lookupId_append_right]
        · exact lookupId_table a n T
        · intro p hp
          have hk := tableE_keys b (nextE a n) p hp
          have hb := rootIdE_bounds a n
          omega
      have htblb : lookupId (rootIdE b (nextE a n))
          (tableE b (nextE a n) ++ (tableE a n ++ T)) = some b :=
        lookupId_table b (nextE a n) (tableE a n ++ T)
      have hget : get2 "div" (tableE b (nextE a n) ++ (tableE a n ++ T))
          [rootIdE a n, rootIdE b (nextE a n)] = .ok (a, b) := by
        simp [get2, get1, htbla, htblb]; rfl
      have hdn : decodeNode
          ⟨nextE b (nextE a n), "div", [rootIdE a n, rootIdE b (nextE a n)], []⟩
          (tableE b (nextE a n) ++ (tableE a n ++ T)) = some (.ok (Expr.Div a b)) := by
        simp [decodeNode, getParam, hget]
      calc decodeNodes (emitE (Expr.Div a b) n ++ rest) T
          = decodeNodes (emitE a n ++ (emitE b (nextE a n) ++
              (⟨nextE b (nextE a n), "div",
                [rootIdE a n, rootIdE b (nextE a n)], []⟩ :: rest))) T := by
            simp [emitE]
        _ = decodeNodes (emitE b (nextE a n) ++
              (⟨nextE b (nextE a n), "div",
                [rootIdE a n, rootIdE b (nextE a n)], []⟩ :: rest))
              (tableE a n ++ T) := iha n T _
        _ = decodeNodes
              (⟨nextE b (nextE a n), "div",
                [rootIdE a n, rootIdE b (nextE a n)], []⟩ :: rest)
              (tableE b (nextE a n) ++ (tableE a n ++ T)) :=
            ihb (nextE a n) (tableE a n ++ T) _
        _ = decodeNodes rest (tableE (Expr.Div a b) n ++ T) := by
            simp [decodeNodes, hdn, tableE]
  | Min a b iha ihb =>
      intro n T rest
      have htbla : lookupId (rootIdE a n)
          (tableE b (nextE a n) ++ (tableE a n ++ T)) = some a := by
        rw [lookupId_append_right]
        · exact lookupId_table a n T
        · intro p hp
          have hk := tableE_keys b (nextE a n) p hp
          have hb := rootIdE_bounds a n
          omega
      have htblb : lookupId (rootIdE b (nextE a n))
          (tableE b (nextE a n) ++ (tableE a n ++ T)) = some b :=
        lookupId_table b (nextE a n) (tableE a n ++ T)
      have hget : get2 "min" (tableE b (nextE a n) ++ (tableE a n ++ T))
          [rootIdE a n, rootIdE b (nextE a n)] = .ok (a, b) := by
        simp [get2, get1, htbla, htblb]; rfl
      have hdn : decodeNode
          ⟨nextE b (nextE a n), "min", [rootIdE a n, rootIdE b (nextE a n)], []⟩
          (tableE b (nextE a n) ++ (tableE a n ++ T)) = some (.ok (Expr.Min a b)) := by
        simp [decodeNode, getParam, hget]
      calc decodeNodes (emitE (Expr.Min a b) n ++ rest) T
          = decodeNodes (emitE a n ++ (emitE b (nextE a n) ++
              (⟨nextE b (nextE a n), "min",
                [rootIdE a n, rootIdE b (nextE a n)], []⟩ :: rest))) T := by
            simp [emitE]
        _ = decodeNodes (emitE b (nextE a n) ++
              (⟨nextE b (nextE a n), "min",
                [rootIdE a n, rootIdE b (nextE a n)], []⟩ :: rest))
              (tableE a n ++ T) := iha n T _
        _ = decodeNodes
              (⟨nextE b (nextE a n), "min",
                [rootIdE a n, rootIdE b (nextE a n)], []⟩ :: rest)
              (tableE b (nextE a n) ++ (tableE a n ++ T)) :=
            ihb (nextE a n) (tableE a n ++ T) _
        _ = decodeNodes rest (tableE (Expr.Min a b) n ++ T) := by
            simp [decodeNodes, hdn, tableE]
  | Max a b iha ihb =>
      intro n T rest
      have htbla : lookupId (rootIdE a n)
          (tableE b (nextE a n) ++ (tableE a n ++ T)) = some a := by
        rw [lookupId_append_right]
        · exact lookupId_table a n T
        · intro p hp
          have hk := tableE_keys b (nextE a n) p hp
          have hb := rootIdE_bounds a n
          omega
      have htblb : lookupId (rootIdE b (nextE a n))
          (tableE b (nextE a n) ++ (tableE a n ++ T)) = some b :=
        lookupId_table b (nextE a n) (tableE a n ++ T)
      have hget : get2 "max" (tableE b (nextE a n) ++ (tableE a n ++ T))
          [rootIdE a n, rootIdE b (nextE a n)] = .ok (a, b) := by
        simp [get2, get1, htbla, htblb]; rfl
      have hdn : decodeNode
          ⟨nextE b (nextE a n), "max", [rootIdE a n, rootIdE b (nextE a n)], []⟩
          (tableE b (nextE a n) ++ (tableE a n ++ T)) = some (.ok (Expr.Max a b)) := by
        simp [decodeNode, getParam, hget]
      calc decodeNodes (emitE (Expr.Max a b) n ++ rest) T
          = decodeNodes (emitE a n ++ (emitE b (nextE a n) ++
              (⟨nextE b (nextE a n), "max",
                [rootIdE a n, rootIdE b (nextE a n)], []⟩ :: rest))) T := by
            simp [emitE]
        _ = decodeNodes (emitE b (nextE a n) ++
              (⟨nextE b (nextE a n), "max",
                [rootIdE a n, rootIdE b (nextE a n)], []⟩ :: rest))
              (tableE a n ++ T) := iha n T _
        _ = decodeNodes
              (⟨nextE b (nextE a n), "max",
                [rootIdE a n, rootIdE b (nextE a n)], []⟩ :: rest)
              (tableE b (nextE a n) ++ (tableE a n ++ T)) :=
            ihb (nextE a n) (tableE a n ++ T) _
        _ = decodeNodes rest (tableE (Expr.Max a b) n ++ T) := by
            simp [decodeNodes, hdn, tableE]
  | SMin a b k iha ihb =>
      intro n T rest
      have htbla : lookupId (rootIdE a n)
          (tableE b (nextE a n) ++ (tableE a n ++ T)) = some a := by
        rw [lookupId_append_right]
        · exact lookupId_table a n T
        · intro p hp
          have hk := tableE_keys b (nextE a n) p hp
          have hb := rootIdE_bounds a n
          omega
      have htblb : lookupId (rootIdE b (nextE a n))
          (tableE b (nextE a n) ++ (tableE a n ++ T)) = some b :=
        lookupId_table b (nextE a n) (tableE a n ++ T)
      have hget : get2 "smin" (tableE b (nextE a n) ++ (tableE a n ++ T))
          [rootIdE a n, rootIdE b (nextE a n)] = .ok (a, b) := by
        simp [get2, get1, htbla, htblb]; rfl
      have hdn : decodeNode
          ⟨nextE b (nextE a n), "smin", [rootIdE a n, rootIdE b (nextE a n)], [("k", k)]⟩
          (tableE b (nextE a n) ++ (tableE a n ++ T)) = some (.ok (Expr.SMin a b k)) := by
        simp [decodeNode, getParam, hget]
      calc decodeNodes (emitE (Expr.SMin a b k) n ++ rest) T
          = decodeNodes (emitE a n ++ (emitE b (nextE a n) ++
              (⟨nextE b (nextE a n), "smin",
                [rootIdE a n, rootIdE b (nextE a n)], [("k", k)]⟩ :: rest))) T := by
            simp [emitE]
        _ = decodeNodes (emitE b (nextE a n) ++
              (⟨nextE b (nextE a n), "smin",
                [rootIdE a n, rootIdE b (nextE a n)], [("k", k)]⟩ :: rest))
              (tableE a n ++ T) := iha n T _
        _ = decodeNodes
              (⟨nextE b (nextE a n), "smin",
                [rootIdE a n, rootIdE b (nextE a n)], [("k", k)]⟩ :: rest)
              (tableE b (nextE a n) ++ (tableE a n ++ T)) :=
            ihb (nextE a n) (tableE a n ++ T) _
        _ = decodeNodes rest (tableE (Expr.SMin a b k) n ++ T) := by
            simp [decodeNodes, hdn, tableE]
  | SMax a b k iha ihb =>
      intro n T rest
      have htbla : lookupId (rootIdE a n)
          (tableE b (nextE a n) ++ (tableE a n ++ T)) = some a := by
        rw [lookupId_append_right]
        · exact lookupId_table a n T
        · intro p hp
          have hk := tableE_keys b (nextE a n) p hp
          have hb := rootIdE_bounds a n
          omega
      have htblb : lookupId (rootIdE b (nextE a n))
          (tableE b (nextE a n) ++ (tableE a n ++ T)) = some b :=
        lookupId_table b (nextE a n) (tableE a n ++ T)
      have hget : get2 "smax" (tableE b (nextE a n) ++ (tableE a n ++ T))
          [rootIdE a n, rootIdE b (nextE a n)] = .ok (a, b) := by
        simp [get2, get1, htbla, htblb]; rfl
      have hdn : decodeNode
          ⟨nextE b (nextE a n), "smax", [rootIdE a n, rootIdE b (nextE a n)], [("k", k)]⟩
          (tableE b (nextE a n) ++ (tableE a n ++ T)) = some (.ok (Expr.SMax a b k)) := by
        simp [decodeNode, getParam, hget]
      calc decodeNodes (emitE (Expr.SMax a b k) n ++ rest) T
          = decodeNodes (emitE a n ++ (emitE b (nextE a n) ++
              (⟨nextE b (nextE a n), "smax",
                [rootIdE a n, rootIdE b (nextE a n)], [("k", k)]⟩ :: rest))) T := by
            simp [emitE]
        _ = decodeNodes (emitE b (nextE a n) ++
              (⟨nextE b (nextE a n), "smax",
                [rootIdE a n, rootIdE b (nextE a n)], [("k", k)]⟩ :: rest))
              (tableE a n ++ T) := iha n T _
        _ = decodeNodes
              (⟨nextE b (nextE a n), "smax",
                [rootIdE a n, rootIdE b (nextE a n)], [("k", k)]⟩ :: rest)
              (tableE b (nextE a n) ++ (tableE a n ++ T)) :=
            ihb (nextE a n) (tableE a n ++ T) _
        _ = decodeNodes rest (tableE (Expr.SMax a b k) n ++ T) := by
            simp [decodeNodes, hdn, tableE]
  | Neg a iha =>
      intro n T rest
      have htbla : lookupId (rootIdE a n) (tableE a n ++ T) = some a :=
        lookupId_table a n T
      have hdn : decodeNode ⟨nextE a n, "neg", [rootIdE a n], []⟩
          (tableE a n ++ T) = some (.ok (Expr.Neg a)) := by
        simp [decodeNode, get1, getParam, htbla]
      calc decodeNodes (emitE (Expr.Neg a) n ++ rest) T
          = decodeNodes (emitE a n ++
              (⟨nextE a n, "neg", [rootIdE a n], []⟩ :: rest)) T := by
            simp [emitE]
        _ = decodeNodes (⟨nextE a n, "neg", [rootIdE a n], []⟩ :: rest)
              (tableE a n ++ T) := iha n T _
        _ = decodeNodes rest (tableE (Expr.Neg a) n ++ T) := by
            simp [decodeNodes, hdn, tableE]
  | Sin a iha =>
      intro n T rest
      have htbla : lookupId (rootIdE a n) (tableE a n ++ T) = some a :=
        lookupId_table a n T
      have hdn : decodeNode ⟨nextE a n, "sin", [rootIdE a n], []⟩
          (tableE a n ++ T) = some (.ok (Expr.Sin a)) := by
        simp [decodeNode, get1, getParam, htbla]
      calc decodeNodes (emitE (Expr.Sin a) n ++ rest) T
          = decodeNodes (emitE a n ++
              (⟨nextE a n, "sin", [rootIdE a n], []⟩ :: rest)) T := by
            simp [emitE]
        _ = decodeNodes (⟨nextE a n, "sin", [rootIdE a n], []⟩ :: rest)
              (tableE a n ++ T) := iha n T _
        _ = decodeNodes rest (tableE (Expr.Sin a) n ++ T) := by
            simp [decodeNodes, hdn, tableE]
  | Cos a iha =>
      intro n T rest
      have htbla : lookupId (rootIdE a n) (tableE a n ++ T) = some a :=
        lookupId_table a n T
      have hdn : decodeNode ⟨nextE a n, "cos", [rootIdE a n], []⟩
          (tableE a n ++ T) = some (.ok (Expr.Cos a)) := by
        simp [decodeNode, get1, getParam, htbla]
      calc decodeNodes (emitE (Expr.Cos a) n ++ rest) T
          = decodeNodes (emitE a n ++
              (⟨nextE a n, "cos", [rootIdE a n], []⟩ :: rest)) T := by
            simp [emitE]
        _ = decodeNodes (⟨nextE a n, "cos", [rootIdE a n], []⟩ :: rest)
              (tableE a n ++ T) := iha n T _
        _ = decodeNodes rest (tableE (Expr.Cos a) n ++ T) := by
            simp [decodeNodes, hdn, tableE]
  | Exp a iha =>
      intro n T rest
      have htbla : lookupId (rootIdE a n) (tableE a n ++ T) = some a :=
        lookupId_table a n T
      have hdn : decodeNode ⟨nextE a n, "exp", [rootIdE a n], []⟩
          (tableE a n ++ T) = some (.ok (Expr.Exp a)) := by
        simp [decodeNode, get1, getParam, htbla]
      calc decodeNodes (emitE (Expr.Exp a) n ++ rest) T
          = decodeNodes (emitE a n ++
              (⟨nextE a n, "exp", [rootIdE a n], []⟩ :: rest)) T := by
            simp [emitE]
        _ = decodeNodes (⟨nextE a n, "exp", [rootIdE a n], []⟩ :: rest)
              (tableE a n ++ T) := iha n T _
        _ = decodeNodes rest (tableE (Expr.Exp a) n ++ T) := by
            simp [decodeNodes, hdn, tableE]
  | Translate a dx dy dz iha =>
      intro n T rest
      have htbla : lookupId (rootIdE a n) (tableE a n ++ T) = some a :=
        lookupId_table a n T
      have hdn : decodeNode ⟨nextE a n, "translate", [rootIdE a n], [("dx", dx), ("dy", dy), ("dz", dz)]⟩
          (tableE a n ++ T) = some (.ok (Expr.Translate a dx dy dz)) := by
        simp [decodeNode, get1, getParam, htbla]
      calc decodeNodes (emitE (Expr.Translate a dx dy dz) n ++ rest) T
          = decodeNodes (emitE a n ++
              (⟨nextE a n, "translate", [rootIdE a n], [("dx", dx), ("dy", dy), ("dz", dz)]⟩ :: rest)) T := by
            simp [emitE]
        _ = decodeNodes (⟨nextE a n, "translate", [rootIdE a n], [("dx", dx), ("dy", dy), ("dz", dz)]⟩ :: rest)
              (tableE a n ++ T) := iha n T _
        _ = decodeNodes rest (tableE (Expr.Translate a dx dy dz) n ++ T) := by
            simp [decodeNodes, hdn, tableE]
  | RotateZ a deg iha =>
      intro n T rest
      have htbla : lookupId (rootIdE a n) (tableE a n ++ T) = some a :=
        lookupId_table a n T
      have hdn : decodeNode ⟨nextE a n, "rotate_z", [rootIdE a n], [("deg", deg)]⟩
          (tableE a n ++ T) = some (.ok (Expr.RotateZ a deg)) := by
        simp [decodeNode, get1, getParam, htbla]
      calc decodeNodes (emitE (Expr.RotateZ a deg) n ++ rest) T
          = decodeNodes (emitE a n ++
              (⟨nextE a n, "rotate_z", [rootIdE a n], [("deg", deg)]⟩ :: rest)) T := by
            simp [emitE]
        _ = decodeNodes (⟨nextE a n, "rotate_z", [rootIdE a n], [("deg", deg)]⟩ :: rest)
              (tableE a n ++ T) := iha n T _
        _ = decodeNodes rest (tableE (Expr.RotateZ a deg) n ++ T) := by
            simp [decodeNodes, hdn, tableE]

/-- A list whose ids read `s, s+1, …` has the id `s + m` at position `m`. -/
theorem map_id_get (L : List TopologyNode) (s : ℕ)
    (h : L.map TopologyNode.id = List.range' s L.length) :
    ∀ m, (hm : m < L.length) → (L.get ⟨m, hm⟩).id = s + m := by
  induction L generalizing s with
  | nil => intro m hm; simp at hm
  | cons a t ih =>
      intro m hm
      simp only [List.map_cons, List.length_cons, List.range'_succ] at h
      injection h with h1 h2
      cases m with
      | zero => simpa using h1
      | succ m' =>
          have := ih (s + 1) h2 m' (by simpa using Nat.lt_of_succ_lt_succ hm)
          simpa [Nat.succ_eq_add_one, Nat.add_assoc, Nat.add_comm 1 m'] using this

/-- The encoder's output has `emitE e 0` as nodes and `rootIdE e 0` as root. -/
theorem expr_to_topology_spec (e : Expr) :
    (expr_to_topology e).nodes = emitE e 0 ∧
    (expr_to_topology e).root = rootIdE e 0 := by
  constructor <;> simp [expr_to_topology, walk_spec e [] 0]

/-- C1: for every expression (all 18 operators are emitted by the encoder),
`topology_to_expr (expr_to_topology e)` succeeds and the decoded expression is
pointwise equal to `e` under `eval` — indeed the decoder reconstructs `e`
itself. -/
theorem c1_round_trip (e : Expr) :
    ∃ d : Expr, topology_to_expr (expr_to_topology e) = some (.ok d) ∧
      ∀ p : Point, eval d p = eval e p := by
  refine ⟨e, ?_, fun _ => rfl⟩
  obtain ⟨hnodes, hroot⟩ := expr_to_topology_spec e
  have hsim := decode_sim e 0 [] []
  have htbl := lookupId_table e 0 []
  simp only [List.append_nil] at hsim htbl
  unfold topology_to_expr
  rw [hnodes, hroot, hsim]
  simp [decodeNodes, htbl]

/-- C9: the encoder's output is well-formed: node ids are `0, 1, …` in listed
order (hence pairwise distinct), every input id of the node at position `k`
names a node at a strictly earlier position, and the root is the last node's
id. -/
theorem c9_encoder_wellformed (e : Expr) :
    ((expr_to_topology e).nodes.map TopologyNode.id =
      List.range (expr_to_topology e).nodes.length) ∧
    ((expr_to_topology e).nodes.map TopologyNode.id).Nodup ∧
    (∀ k, (hk : k < (expr_to_topology e).nodes.length) →
      ∀ i ∈ ((expr_to_topology e).nodes.get ⟨k, hk⟩).inputs,
        ∃ j, ∃ hj : j < (expr_to_topology e).nodes.length, j < k ∧
          ((expr_to_topology e).nodes.get ⟨j, hj⟩).id = i) ∧
    (∃ last, (expr_to_topology e).nodes.getLast? = some last ∧
      (expr_to_topology e).root = last.id) := by
  obtain ⟨hnodes, hroot⟩ := expr_to_topology_spec e
  rw [hnodes, hroot]
  have hmap := emitE_map_id e 0
  have hid : ∀ m, (hm : m < (emitE e 0).length) →
      ((emitE e 0).get ⟨m, hm⟩).id = m := by
    intro m hm
    simpa using map_id_get (emitE e 0) 0 hmap m hm
  refine ⟨?_, ?_, ?_, ?_⟩
  · rw [hmap, List.range_eq_range']
  · rw [hmap]; exact List.nodup_range' _ _
  · intro k hk i hi
    have hnode := emitE_inputs e 0 ((emitE e 0).get ⟨k, hk⟩)
      (List.get_mem _ _ _) i hi
    have hkid := hid k hk
    have hilt : i < k := by omega
    have hilen : i < (emitE e 0).length := by omega
    exact ⟨i, hilen, hilt, hid i hilen⟩
  · obtain ⟨l, h1, h2⟩ := emitE_last e 0
    exact ⟨l, h1, h2.symm⟩

/-- Witness for C9: the encoding of `Add(X, Y)` ends in its root node. -/
theorem c9_encoder_wellformed_witness :
    ∃ last, (expr_to_topology (.Add Expr.X Expr.Y)).nodes.getLast? = some last ∧
      (expr_to_topology (.Add Expr.X Expr.Y)).root = last.id :=
  (c9_encoder_wellformed (.Add Expr.X Expr.Y)).2.2.2

/-! ## C4: the finite-difference Hessian -/

/-- Gradient at the point shifted by `+t` along coordinate axis `j`. -/
noncomputable def gradShiftP (e : Expr) (x y z t : ℝ) : Fin 3 → Option Vec3
  | 0 => gradient e (x + t) y z
  | 1 => gradient e x (y + t) z
  | 2 => gradient e x y (z + t)

/-- Gradient at the point shifted by `-t` along coordinate axis `j`. -/
noncomputable def gradShiftM (e : Expr) (x y z t : ℝ) : Fin 3 → Option Vec3
  | 0 => gradient e (x - t) y z
  | 1 => gradient e x (y - t) z
  | 2 => gradient e x y (z - t)

/-- Each Hessian entry `H[i][j]` is the central difference of gradient
component `i` along axis `j`. -/
theorem hessian_entry (e : Expr) (x y z eps : ℝ) (H : Mat3)
    (hH : hessian e x y z eps = some H) (i j : Fin 3) :
    ∃ gp gm : Vec3, gradShiftP e x y z eps j = some gp ∧
      gradShiftM e x y z eps j = some gm ∧
      H i j = (gp i - gm i) / (2 * eps) := by
  unfold hessian at hH
  cases h1 : gradient e (x + eps) y z with
  | none => rw [h1] at hH; simp at hH
  | some gxp =>
  cases h2 : gradient e (x - eps) y z with
  | none => rw [h1, h2] at hH; simp at hH
  | some gxm =>
  cases h3 : gradient e x (y + eps) z with
  | none => rw [h1, h2, h3] at hH; simp at hH
  | some gyp =>
  cases h4 : gradient e x (y - eps) z with
  | none => rw [h1, h2, h3, h4] at hH; simp at hH
  | some gym =>
  cases h5 : gradient e x y (z + eps) with
  | none => rw [h1, h2, h3, h4, h5] at hH; simp at hH
  | some gzp =>
  cases h6 : gradient e x y (z - eps) with
  | none => rw [h1, h2, h3, h4, h5, h6] at hH; simp at hH
  | some gzm =>
  rw [h1, h2, h3, h4, h5, h6] at hH
  simp only [Option.some.injEq] at hH
  subst hH
  fin_cases i <;> fin_cases j
  · exact ⟨gxp, gxm, h1, h2, rfl⟩
  · exact ⟨gyp, gym, h3, h4, rfl⟩
  · exact ⟨gzp, gzm, h5, h6, rfl⟩
  · exact ⟨gxp, gxm, h1, h2, rfl⟩
  · exact ⟨gyp, gym, h3, h4, rfl⟩
  · exact ⟨gzp, gzm, h5, h6, rfl⟩
  · exact ⟨gxp, gxm, h1, h2, rfl⟩
  · exact ⟨gyp, gym, h3, h4, rfl⟩
  · exact ⟨gzp, gzm, h5, h6, rfl⟩

/-- A successful refinement classifies with the `eps = 1e-4` Hessian at the
returned point. -/
theorem refineAux_uses_default_eps (e : Expr) :
    ∀ (n : ℕ) (x y z : ℝ) (cp : CriticalPoint), refineAux e x y z n = some cp →
    ∃ h, hessian e cp.x cp.y cp.z 1e-4 = some h ∧ cp.index = morse_index h := by
  intro n
  induction n with
  | zero => intro x y z cp h; simp [refineAux] at h
  | succ m ih =>
      intro x y z cp hcp
      rw [refineAux] at hcp
      cases hg : gradient e x y z with
      | none => rw [hg] at hcp; simp at hcp
      | some g =>
          rw [hg] at hcp
          dsimp only at hcp
          by_cases hlt : Real.sqrt (g 0 * g 0 + g 1 * g 1 + g 2 * g 2) < 1e-8
          · rw [if_pos hlt] at hcp
            cases hd : eval_ad e x y z with
            | none => rw [hd] at hcp; simp at hcp
            | some d =>
                cases hh : hessian e x y z 1e-4 with
                | none => rw [hd, hh] at hcp; simp at hcp
                | some h =>
                    rw [hd, hh] at hcp
                    dsimp only at hcp
                    simp only [Option.some.injEq] at hcp
                    subst hcp
                    exact ⟨h, hh, rfl⟩
          · rw [if_neg hlt] at hcp
            cases hh : hessian e x y z 1e-4 with
            | none => rw [hh] at hcp; simp at hcp
            | some h =>
                rw [hh] at hcp
                dsimp only at hcp
                cases hs : solve3 h ![-g 0, -g 1, -g 2] with
                | none => rw [hs] at hcp; simp at hcp
                | some delta =>
                    rw [hs] at hcp
                    dsimp only at hcp
                    exact ih _ _ _ cp hcp

/-- C4 (amended): `H[i][j]` is the central difference of gradient component
`i` along axis `j` — the transpose of the claimed formula — and the solver
classifies with the default step `1e-4`. -/
theorem c4_hessian_characterization :
    (∀ (e : Expr) (x y z eps : ℝ), 0 < eps → ∀ H, hessian e x y z eps = some H →
      ∀ i j : Fin 3, ∃ gp gm : Vec3, gradShiftP e x y z eps j = some gp ∧
        gradShiftM e x y z eps j = some gm ∧
        H i j = (gp i - gm i) / (2 * eps)) ∧
    (∀ (e : Expr) (x y z : ℝ) (cp : CriticalPoint),
      refine_critical e x y z = some cp →
      ∃ h, hessian e cp.x cp.y cp.z 1e-4 = some h ∧
        cp.index = morse_index h) :=
  ⟨fun e x y z eps _ H hH i j => hessian_entry e x y z eps H hH i j,
   fun e x y z cp hcp => refineAux_uses_default_eps e 24 x y z cp hcp⟩

/-- The expression `min(x, 2·y)`, whose `eval_ad` gradient is selected by the
winning child and therefore has an asymmetric finite-difference Hessian. -/
def eC4 : Expr := .Min Expr.X (.Mul (.Const 2) Expr.Y)

/-- C4 counterexample: at `e = min(x, 2y)`, `p = (0,0,0)`, `ε = 1`, the code's
`H[0][1]` is `1/2` (difference of gradient component 0 along axis 1), while
the claimed formula `(g_1(p + ε·e_0) − g_1(p − ε·e_0)) / (2ε)` evaluates to
`1`. -/
theorem c4_hessian_counterexample :
    Option.map (fun H : Mat3 => H 0 1) (hessian eC4 0 0 0 1) = some (1 / 2 : ℝ) ∧
    Option.map (fun g : Vec3 => g 1) (gradient eC4 (0 + 1) 0 0) = some (2 : ℝ) ∧
    Option.map (fun g : Vec3 => g 1) (gradient eC4 (0 - 1) 0 0) = some (0 : ℝ) ∧
    (1 / 2 : ℝ) ≠ ((2 : ℝ) - 0) / (2 * 1) := by
  refine ⟨?_, ?_, ?_, by norm_num⟩
  · norm_num [hessian, gradient, eC4, eval_ad, AD1.c, AD1.mul,
      Matrix.cons_val_zero, Matrix.cons_val_one, Matrix.head_cons]
  · norm_num [gradient, eC4, eval_ad, AD1.c, AD1.mul,
      Matrix.cons_val_one, Matrix.head_cons]
  · norm_num [gradient, eC4, eval_ad, AD1.c, AD1.mul,
      Matrix.cons_val_one, Matrix.head_cons]

/-- Witness for C4 at `e = X`, a point, `ε = 1`, entry `(0, 0)`. -/
theorem c4_hessian_characterization_witness :
    ∃ H, hessian Expr.X 0 0 0 1 = some H ∧
      ∃ gp gm : Vec3, gradShiftP Expr.X 0 0 0 1 0 = some gp ∧
        gradShiftM Expr.X 0 0 0 1 0 = some gm ∧
        H 0 0 = (gp 0 - gm 0) / (2 * 1) := by
  refine ⟨_, rfl, ?_⟩
  exact c4_hessian_characterization.1 Expr.X 0 0 0 1 one_pos _ rfl 0 0

/-! ## C3: the Newton refinement loop -/

/-- On `RotateZ`-free expressions `eval_ad` is total. -/
theorem evalAD_total (e : Expr) : ∀ x y z : ℝ, noRotate e = true →
    ∃ d, eval_ad e x y z = some d := by
  induction e with
  | Const c => exact fun x y z _ => ⟨_, rfl⟩
  | X => exact fun x y z _ => ⟨_, rfl⟩
  | Y => exact fun x y z _ => ⟨_, rfl⟩
  | Z => exact fun x y z _ => ⟨_, rfl⟩
  | Add a b iha ihb =>
      intro x y z he
      simp only [noRotate, Bool.and_eq_true] at he
      obtain ⟨da, hda⟩ := iha x y z he.1
      obtain ⟨db, hdb⟩ := ihb x y z he.2
      simp [eval_ad, hda, hdb]
  | Sub a b iha ihb =>
      intro x y z he
      simp only [noRotate, Bool.and_eq_true] at he
      obtain ⟨da, hda⟩ := iha x y z he.1
      obtain ⟨db, hdb⟩ := ihb x y z he.2
      simp [eval_ad, hda, hdb]
  | Mul a b iha ihb =>
      intro x y z he
      simp only [noRotate, Bool.and_eq_true] at he
      obtain ⟨da, hda⟩ := iha x y z he.1
      obtain ⟨db, hdb⟩ := ihb x y z he.2
      simp [eval_ad, hda, hdb]
  | Div a b iha ihb =>
      intro x y z he
      simp only [noRotate, Bool.and_eq_true] at he
      obtain ⟨da, hda⟩ := iha x y z he.1
      obtain ⟨db, hdb⟩ := ihb x y z he.2
      simp [eval_ad, hda, hdb]
  | Min a b iha ihb =>
      intro x y z he
      simp only [noRotate, Bool.and_eq_true] at he
      obtain ⟨da, hda⟩ := iha x y z he.1
      obtain ⟨db, hdb⟩ := ihb x y z he.2
      simp [eval_ad, hda, hdb]
  | Max a b iha ihb =>
      intro x y z he
      simp only [noRotate, Bool.and_eq_true] at he
      obtain ⟨da, hda⟩ := iha x y z he.1
      obtain ⟨db, hdb⟩ := ihb x y z he.2
      simp [eval_ad, hda, hdb]
  | SMin a b k iha ihb =>
      intro x y z he
      simp only [noRotate, Bool.and_eq_true] at he
      obtain ⟨da, hda⟩ := iha x y z he.1
      obtain ⟨db, hdb⟩ := ihb x y z he.2
      simp [eval_ad, hda, hdb]
  | SMax a b k iha ihb =>
      intro x y z he
      simp only [noRotate, Bool.and_eq_true] at he
      obtain ⟨da, hda⟩ := iha x y z he.1
      obtain ⟨db, hdb⟩ := ihb x y z he.2
      simp [eval_ad, hda, hdb]
  | Neg a iha =>
      intro x y z he
      simp only [noRotate] at he
      obtain ⟨da, hda⟩ := iha x y z he
      simp [eval_ad, hda]
  | Sin a iha =>
      intro x y z he
      simp only [noRotate] at he
      obtain ⟨da, hda⟩ := iha x y z he
      simp [eval_ad, hda]
  | Cos a iha =>
      intro x y z he
      simp only [noRotate] at he
      obtain ⟨da, hda⟩ := iha x y z he
      simp [eval_ad, hda]
  | Exp a iha =>
      intro x y z he
      simp only [noRotate] at he
      obtain ⟨da, hda⟩ := iha x y z he
      simp [eval_ad, hda]
  | Translate a dx dy dz iha =>
      intro x y z he
      simp only [noRotate] at he
      obtain ⟨da, hda⟩ := iha (x - dx) (y - dy) (z - dz) he
      exact ⟨da, by simp [eval_ad, hda]⟩
  | RotateZ a deg iha =>
      intro x y z he
      simp [noRotate] at he

/-- On `RotateZ`-free expressions the gradient is total. -/
theorem gradient_total (e : Expr) (he : noRotate e = true) (x y z : ℝ) :
    ∃ g, gradient e x y z = some g := by
  obtain ⟨d, hd⟩ := evalAD_total e x y z he
  exact ⟨d.g, by simp [gradient, hd]⟩

/-- On `RotateZ`-free expressions the Hessian is total. -/
theorem hessian_total (e : Expr) (he : noRotate e = true) (x y z eps : ℝ) :
    ∃ H, hessian e x y z eps = some H := by
  obtain ⟨g1, h1⟩ := gradient_total e he (x + eps) y z
  obtain ⟨g2, h2⟩ := gradient_total e he (x - eps) y z
  obtain ⟨g3, h3⟩ := gradient_total e he x (y + eps) z
  obtain ⟨g4, h4⟩ := gradient_total e he x (y - eps) z
  obtain ⟨g5, h5⟩ := gradient_total e he x y (z + eps)
  obtain ⟨g6, h6⟩ := gradient_total e he x y (z - eps)
  unfold hessian
  rw [h1, h2, h3, h4, h5, h6]
  exact ⟨_, rfl⟩

/-- `Steps e k p r`: starting from seed `p`, the Newton loop of
`refine_critical` performs exactly `k` successful updates and stands at `r`.
Each update requires the gradient norm check to fail, the Gauss–Jordan solve
to succeed and the updated coordinates to pass the finiteness check, exactly
as in the loop body. -/
inductive Steps (e : Expr) : ℕ → Point → Point → Prop
  | refl (p : Point) : Steps e 0 p p
  | step {k : ℕ} {p r : Point} (g : Vec3) (h : Mat3) (delta : Vec3)
      (hg : gradient e p.x p.y p.z = some g)
      (hbig : ¬ Real.sqrt (g 0 * g 0 + g 1 * g 1 + g 2 * g 2) < 1e-8)
      (hh : hessian e p.x p.y p.z 1e-4 = some h)
      (hs : solve3 h ![-g 0, -g 1, -g 2] = some delta)
      (hfin : (isFiniteR (p.x + delta 0) && isFiniteR (p.y + delta 1) &&
        isFiniteR (p.z + delta 2)) = true)
      (hrest : Steps e k ⟨p.x + delta 0, p.y + delta 1, p.z + delta 2⟩ r) :
      Steps e (k + 1) p r

/-- The fuelled Newton loop returns `some` exactly when an iterate within the
budget reaches gradient norm below `1e-8`; the returned point is that iterate
with its field value and Morse index. -/
theorem refineAux_some_iff (e : Expr) : ∀ (n : ℕ) (p : Point) (cp : CriticalPoint),
    refineAux e p.x p.y p.z n = some cp ↔
      ∃ k, k < n ∧ ∃ q g d h, Steps e k p q ∧
        gradient e q.x q.y q.z = some g ∧
        Real.sqrt (g 0 * g 0 + g 1 * g 1 + g 2 * g 2) < 1e-8 ∧
        eval_ad e q.x q.y q.z = some d ∧
        hessian e q.x q.y q.z 1e-4 = some h ∧
        cp = ⟨q.x, q.y, q.z, d.v, morse_index h⟩ := by
  intro n
  induction n with
  | zero =>
      intro p cp
      constructor
      · intro h; simp [refineAux] at h
      · rintro ⟨k, hk, _⟩; omega
  | succ m ih =>
      intro p cp
      constructor
      · intro hcp
        rw [refineAux] at hcp
        cases hg : gradient e p.x p.y p.z with
        | none => rw [hg] at hcp; simp at hcp
        | some g =>
            rw [hg] at hcp
            dsimp only at hcp
            by_cases hlt : Real.sqrt (g 0 * g 0 + g 1 * g 1 + g 2 * g 2) < 1e-8
            · rw [if_pos hlt] at hcp
              cases hd : eval_ad e p.x p.y p.z with
              | none => rw [hd] at hcp; simp at hcp
              | some d =>
                  cases hh : hessian e p.x p.y p.z 1e-4 with
                  | none => rw [hd, hh] at hcp; simp at hcp
                  | some h =>
                      rw [hd, hh] at hcp
                      dsimp only at hcp
                      simp only [Option.some.injEq] at hcp
                      exact ⟨0, by omega, p, g, d, h, Steps.refl p, hg, hlt, hd, hh,
                        hcp.symm⟩
            · rw [if_neg hlt] at hcp
              cases hh : hessian e p.x p.y p.z 1e-4 with
              | none => rw [hh] at hcp; simp at hcp
              | some h =>
                  rw [hh] at hcp
                  dsimp only at hcp
                  cases hs : solve3 h ![-g 0, -g 1, -g 2] with
                  | none => rw [hs] at hcp; simp at hcp
                  | some delta =>
                      rw [hs] at hcp
                      dsimp only at hcp
                      have hrec : refineAux e (p.x + delta 0) (p.y + delta 1)
                          (p.z + delta 2) m = some cp := hcp
                      obtain ⟨k, hk, q, g', d', h', hst, h1, h2, h3, h4, h5⟩ :=
                        (ih ⟨p.x + delta 0, p.y + delta 1, p.z + delta 2⟩ cp).mp hrec
                      exact ⟨k + 1, by omega, q, g', d', h',
                        Steps.step g h delta hg hlt hh hs rfl hst, h1, h2, h3, h4, h5⟩
      · rintro ⟨k, hk, q, g, d, h, hst, h1, h2, h3, h4, h5⟩
        cases hst with
        | refl =>
            rw [refineAux, h1]
            dsimp only
            rw [if_pos h2, h3, h4]
            dsimp only
            rw [h5]
        | @step k0 _ _ g0 h0 delta0 hg0 hbig0 hh0 hs0 hfin0 hrest =>
            rw [refineAux, hg0]
            dsimp only
            rw [if_neg hbig0, hh0]
            dsimp only
            rw [hs0]
            dsimp only
            exact (ih ⟨p.x + delta0 0, p.y + delta0 1, p.z + delta0 2⟩ cp).mpr
              ⟨k0, by omega, q, g, d, h, hrest, h1, h2, h3, h4, h5⟩

/-- On `RotateZ`-free expressions the fuelled Newton loop returns `none`
exactly when the trace hits a singular Gauss–Jordan system, a non-finite
updated coordinate (vacuous over `ℝ`), or exhausts the budget without the
gradient norm dropping below `1e-8`. -/
theorem refineAux_none_iff (e : Expr) (he : noRotate e = true) :
    ∀ (n : ℕ) (p : Point),
    refineAux e p.x p.y p.z n = none ↔
      ((∃ k, k < n ∧ ∃ q g h, Steps e k p q ∧
          gradient e q.x q.y q.z = some g ∧
          ¬ Real.sqrt (g 0 * g 0 + g 1 * g 1 + g 2 * g 2) < 1e-8 ∧
          hessian e q.x q.y q.z 1e-4 = some h ∧
          solve3 h ![-g 0, -g 1, -g 2] = none) ∨
        (∃ k, k < n ∧ ∃ q g h delta, Steps e k p q ∧
          gradient e q.x q.y q.z = some g ∧
          ¬ Real.sqrt (g 0 * g 0 + g 1 * g 1 + g 2 * g 2) < 1e-8 ∧
          hessian e q.x q.y q.z 1e-4 = some h ∧
          solve3 h ![-g 0, -g 1, -g 2] = some delta ∧
          ¬ (isFiniteR (q.x + delta 0) && isFiniteR (q.y + delta 1) &&
              isFiniteR (q.z + delta 2)) = true) ∨
        (∃ q, Steps e n p q)) := by
  intro n
  induction n with
  | zero =>
      intro p
      constructor
      · intro _
        exact Or.inr (Or.inr ⟨p, Steps.refl p⟩)
      · intro _
        rfl
  | succ m ih =>
      intro p
      constructor
      · intro hcp
        rw [refineAux] at hcp
        obtain ⟨g, hg⟩ := gradient_total e he p.x p.y p.z
        rw [hg] at hcp
        dsimp only at hcp
        by_cases hlt : Real.sqrt (g 0 * g 0 + g 1 * g 1 + g 2 * g 2) < 1e-8
        · rw [if_pos hlt] at hcp
          obtain ⟨d, hd⟩ := evalAD_total e p.x p.y p.z he
          obtain ⟨h, hh⟩ := hessian_total e he p.x p.y p.z 1e-4
          rw [hd, hh] at hcp
          dsimp only at hcp
          simp at hcp
        · rw [if_neg hlt] at hcp
          obtain ⟨h, hh⟩ := hessian_total e he p.x p.y p.z 1e-4
          rw [hh] at hcp
          dsimp only at hcp
          cases hs : solve3 h ![-g 0, -g 1, -g 2] with
          | none =>
              exact Or.inl ⟨0, by omega, p, g, h, Steps.refl p, hg, hlt, hh, hs⟩
          | some delta =>
              rw [hs] at hcp
              dsimp only at hcp
              have hrec : refineAux e (p.x + delta 0) (p.y + delta 1)
                  (p.z + delta 2) m = none := hcp
              rcases (ih ⟨p.x + delta 0, p.y + delta 1, p.z + delta 2⟩).mp hrec with
                ⟨k, hk, q, g', h', hst, c1, c2, c3, c4⟩ |
                ⟨k, hk, q, g', h', delta', hst, c1, c2, c3, c4, c5⟩ | ⟨q, hst⟩
              · exact Or.inl ⟨k + 1, by omega, q, g', h',
                  Steps.step g h delta hg hlt hh hs rfl hst, c1, c2, c3, c4⟩
              · exact Or.inr (Or.inl ⟨k + 1, by omega, q, g', h', delta',
                  Steps.step g h delta hg hlt hh hs rfl hst, c1, c2, c3, c4, c5⟩)
              · exact Or.inr (Or.inr ⟨q,
                  Steps.step g h delta hg hlt hh hs rfl hst⟩)
      · rintro (⟨k, hk, q, g, h, hst, c1, c2, c3, c4⟩ |
          ⟨k, hk, q, g, h, delta, hst, c1, c2, c3, c4, c5⟩ | ⟨q, hst⟩)
        · cases hst with
          | refl =>
              rw [refineAux, c1]
              dsimp only
              rw [if_neg c2, c3]
              dsimp only
              rw [c4]
          | @step k0 _ _ g0 h0 delta0 hg0 hbig0 hh0 hs0 hfin0 hrest =>
              rw [refineAux, hg0]
              dsimp only
              rw [if_neg hbig0, hh0]
              dsimp only
              rw [hs0]
              dsimp only
              exact (ih ⟨p.x + delta0 0, p.y + delta0 1, p.z + delta0 2⟩).mpr
                (Or.inl ⟨k0, by omega, q, g, h, hrest, c1, c2, c3, c4⟩)
        · exact absurd rfl c5
        · cases hst with
          | @step k0 _ _ g0 h0 delta0 hg0 hbig0 hh0 hs0 hfin0 hrest =>
              rw [refineAux, hg0]
              dsimp only
              rw [if_neg hbig0, hh0]
              dsimp only
              rw [hs0]
              dsimp only
              exact (ih ⟨p.x + delta0 0, p.y + delta0 1, p.z + delta0 2⟩).mpr
                (Or.inr (Or.inr ⟨q, hrest⟩))

/-- C3: on expressions the interpreters are defined on, `refine_critical` runs
at most 24 Newton iterations; it returns `Some` exactly when some iterate
within the budget reaches gradient norm below `1e-8` (the returned critical
point being that iterate with its field value and Morse index), and it returns
`None` exactly when the trace hits a singular Gauss–Jordan solve
(largest pivot magnitude below `1e-12`), a non-finite updated coordinate
(which cannot happen over the real model), or exhausts the 24-iteration
budget without convergence; being a total function it never panics. -/
theorem c3_refine_characterization (e : Expr) (he : noRotate e = true)
    (x y z : ℝ) :
    (∀ cp, refine_critical e x y z = some cp ↔
      ∃ k, k < 24 ∧ ∃ q g d h, Steps e k ⟨x, y, z⟩ q ∧
        gradient e q.x q.y q.z = some g ∧
        Real.sqrt (g 0 * g 0 + g 1 * g 1 + g 2 * g 2) < 1e-8 ∧
        eval_ad e q.x q.y q.z = some d ∧
        hessian e q.x q.y q.z 1e-4 = some h ∧
        cp = ⟨q.x, q.y, q.z, d.v, morse_index h⟩) ∧
    (refine_critical e x y z = none ↔
      ((∃ k, k < 24 ∧ ∃ q g h, Steps e k ⟨x, y, z⟩ q ∧
          gradient e q.x q.y q.z = some g ∧
          ¬ Real.sqrt (g 0 * g 0 + g 1 * g 1 + g 2 * g 2) < 1e-8 ∧
          hessian e q.x q.y q.z 1e-4 = some h ∧
          solve3 h ![-g 0, -g 1, -g 2] = none) ∨
        (∃ k, k < 24 ∧ ∃ q g h delta, Steps e k ⟨x, y, z⟩ q ∧
          gradient e q.x q.y q.z = some g ∧
          ¬ Real.sqrt (g 0 * g 0 + g 1 * g 1 + g 2 * g 2) < 1e-8 ∧
          hessian e q.x q.y q.z 1e-4 = some h ∧
          solve3 h ![-g 0, -g 1, -g 2] = some delta ∧
          ¬ (isFiniteR (q.x + delta 0) && isFiniteR (q.y + delta 1) &&
              isFiniteR (q.z + delta 2)) = true) ∨
        (∃ q, Steps e 24 ⟨x, y, z⟩ q))) :=
  ⟨fun cp => refineAux_some_iff e 24 ⟨x, y, z⟩ cp,
   refineAux_none_iff e he 24 ⟨x, y, z⟩⟩

/-- Witness for C3 at `e = Const 0`, seed `(0,0,0)`: the gradient vanishes at
the seed, so the loop converges in the first iteration. -/
theorem c3_refine_characterization_witness :
    ∃ cp, refine_critical (Expr.Const 0) 0 0 0 = some cp := by
  obtain ⟨h, hh⟩ : ∃ h, hessian (Expr.Const 0) 0 0 0 1e-4 = some h := ⟨_, rfl⟩
  refine ⟨⟨0, 0, 0, (AD1.c 0).v, morse_index h⟩,
    ((c3_refine_characterization (Expr.Const 0) rfl 0 0 0).1 _).mpr ?_⟩
  refine ⟨0, by norm_num, ⟨0, 0, 0⟩, ![0, 0, 0], AD1.c 0, h, Steps.refl _, rfl, ?_,
    rfl, hh, rfl⟩
  have hz : (![0, 0, 0] : Vec3) 0 * ![0, 0, 0] 0 + ![0, 0, 0] 1 * ![0, 0, 0] 1 +
      ![0, 0, 0] 2 * ![0, 0, 0] 2 = 0 := by norm_num
  rw [hz, Real.sqrt_zero]
  norm_num

/-! ## C2: interval enclosure -/

/-- Coercion commutes with `min`. -/
theorem coe_min' (a b : ℝ) : ((min a b : ℝ) : EReal) = min (a : EReal) b := by
  rcases le_total a b with h | h
  · rw [min_eq_left h, min_eq_left (EReal.coe_le_coe_iff.mpr h)]
  · rw [min_eq_right h, min_eq_right (EReal.coe_le_coe_iff.mpr h)]

/-- Coercion commutes with `max`. -/
theorem coe_max' (a b : ℝ) : ((max a b : ℝ) : EReal) = max (a : EReal) b := by
  rcases le_total a b with h | h
  · rw [max_eq_right h, max_eq_right (EReal.coe_le_coe_iff.mpr h)]
  · rw [max_eq_left h, max_eq_left (EReal.coe_le_coe_iff.mpr h)]

/-- The source's `fold(INFINITY, min)` over the four corner products. -/
theorem foldl_min4 (p1 p2 p3 p4 : EReal) :
    [p1, p2, p3, p4].foldl min ⊤ = min (min (min p1 p2) p3) p4 := by
  simp only [List.foldl]
  rw [min_eq_right (le_top : p1 ≤ ⊤)]

/-- The source's `fold(NEG_INFINITY, max)` over the four corner products. -/
theorem foldl_max4 (p1 p2 p3 p4 : EReal) :
    [p1, p2, p3, p4].foldl max ⊥ = max (max (max p1 p2) p3) p4 := by
  simp only [List.foldl]
  rw [max_eq_right (bot_le : ⊥ ≤ p1)]

theorem min4_le_1 (p1 p2 p3 p4 : EReal) : min (min (min p1 p2) p3) p4 ≤ p1 :=
  le_trans (min_le_left _ _) (le_trans (min_le_left _ _) (min_le_left _ _))

theorem min4_le_2 (p1 p2 p3 p4 : EReal) : min (min (min p1 p2) p3) p4 ≤ p2 :=
  le_trans (min_le_left _ _) (le_trans (min_le_left _ _) (min_le_right _ _))

theorem min4_le_3 (p1 p2 p3 p4 : EReal) : min (min (min p1 p2) p3) p4 ≤ p3 :=
  le_trans (min_le_left _ _) (min_le_right _ _)

theorem min4_le_4 (p1 p2 p3 p4 : EReal) : min (min (min p1 p2) p3) p4 ≤ p4 :=
  min_le_right _ _

theorem le_max4_1 (p1 p2 p3 p4 : EReal) : p1 ≤ max (max (max p1 p2) p3) p4 :=
  le_trans (le_trans (le_max_left _ _) (le_max_left _ _)) (le_max_left _ _)

theorem le_max4_2 (p1 p2 p3 p4 : EReal) : p2 ≤ max (max (max p1 p2) p3) p4 :=
  le_trans (le_trans (le_max_right _ _) (le_max_left _ _)) (le_max_left _ _)

theorem le_max4_3 (p1 p2 p3 p4 : EReal) : p3 ≤ max (max (max p1 p2) p3) p4 :=
  le_trans (le_max_right _ _) (le_max_left _ _)

theorem le_max4_4 (p1 p2 p3 p4 : EReal) : p4 ≤ max (max (max p1 p2) p3) p4 :=
  le_max_right _ _

/-- Multiplication on the right by a nonpositive factor reverses order. -/
theorem ereal_mul_le_mul_right_nonpos {x y : EReal} (c : EReal) (h : x ≤ y)
    (hc : c ≤ 0) : y * c ≤ x * c := by
  have hnc : (0 : EReal) ≤ -c := by
    rw [← neg_zero]
    exact EReal.neg_le_neg_iff.mpr hc
  have h2 : x * -c ≤ y * -c := mul_le_mul_of_nonneg_right h hnc
  have hx : x * -c = -(x * c) := by
    rw [mul_comm, EReal.neg_mul, mul_comm]
  have hy : y * -c = -(y * c) := by
    rw [mul_comm, EReal.neg_mul, mul_comm]
  rw [hx, hy] at h2
  exact EReal.neg_le_neg_iff.mp h2

/-- Multiplication on the left by a nonpositive factor reverses order. -/
theorem ereal_mul_le_mul_left_nonpos {x y : EReal} (c : EReal) (h : x ≤ y)
    (hc : c ≤ 0) : c * y ≤ c * x := by
  rw [mul_comm c y, mul_comm c x]
  exact ereal_mul_le_mul_right_nonpos c h hc

/-- Lower corner bound for interval multiplication over `EReal`. -/
theorem mul_corner_lower (al ah bl bh : EReal) (va vb : ℝ)
    (h1 : al ≤ (va : EReal)) (h2 : (va : EReal) ≤ ah)
    (h3 : bl ≤ (vb : EReal)) (h4 : (vb : EReal) ≤ bh) :
    min (min (min (al * bl) (al * bh)) (ah * bl)) (ah * bh) ≤
      ((va * vb : ℝ) : EReal) := by
  rw [EReal.coe_mul]
  rcases lt_trichotomy vb 0 with hvb | hvb | hvb
  · have hvb' : (vb : EReal) ≤ 0 := EReal.coe_nonpos.mpr hvb.le
    have s1 : ah * (vb : EReal) ≤ (va : EReal) * vb :=
      ereal_mul_le_mul_right_nonpos _ h2 hvb'
    rcases le_total 0 ah with hah | hah
    · have s2 : ah * bl ≤ ah * (vb : EReal) := mul_le_mul_of_nonneg_left h3 hah
      exact le_trans (min4_le_3 _ _ _ _) (le_trans s2 s1)
    · have s2 : ah * bh ≤ ah * (vb : EReal) := ereal_mul_le_mul_left_nonpos _ h4 hah
      exact le_trans (min4_le_4 _ _ _ _) (le_trans s2 s1)
  · subst hvb
    rw [EReal.coe_zero, mul_zero]
    rcases le_total 0 al with hal | hal
    · have hah : (0 : EReal) ≤ ah := le_trans hal (le_trans h1 h2)
      have hbl : bl ≤ 0 := by rw [← EReal.coe_zero]; exact h3
      have : ah * bl ≤ ah * 0 := mul_le_mul_of_nonneg_left hbl hah
      rw [mul_zero] at this
      exact le_trans (min4_le_3 _ _ _ _) this
    · have hbh : (0 : EReal) ≤ bh := by rw [← EReal.coe_zero]; exact h4
      have : al * bh ≤ 0 * bh := mul_le_mul_of_nonneg_right hal hbh
      rw [zero_mul] at this
      exact le_trans (min4_le_2 _ _ _ _) this
  · have hvb' : (0 : EReal) ≤ (vb : EReal) := EReal.coe_nonneg.mpr hvb.le
    have s1 : al * (vb : EReal) ≤ (va : EReal) * vb :=
      mul_le_mul_of_nonneg_right h1 hvb'
    rcases le_total 0 al with hal | hal
    · have s2 : al * bl ≤ al * (vb : EReal) := mul_le_mul_of_nonneg_left h3 hal
      exact le_trans (min4_le_1 _ _ _ _) (le_trans s2 s1)
    · have s2 : al * bh ≤ al * (vb : EReal) := ereal_mul_le_mul_left_nonpos _ h4 hal
      exact le_trans (min4_le_2 _ _ _ _) (le_trans s2 s1)

/-- Upper corner bound for interval multiplication over `EReal`. -/
theorem mul_corner_upper (al ah bl bh : EReal) (va vb : ℝ)
    (h1 : al ≤ (va : EReal)) (h2 : (va : EReal) ≤ ah)
    (h3 : bl ≤ (vb : EReal)) (h4 : (vb : EReal) ≤ bh) :
    ((va * vb : ℝ) : EReal) ≤
      max (max (max (al * bl) (al * bh)) (ah * bl)) (ah * bh) := by
  rw [EReal.coe_mul]
  rcases lt_trichotomy vb 0 with hvb | hvb | hvb
  · have hvb' : (vb : EReal) ≤ 0 := EReal.coe_nonpos.mpr hvb.le
    have s1 : (va : EReal) * vb ≤ al * (vb : EReal) :=
      ereal_mul_le_mul_right_nonpos _ h1 hvb'
    rcases le_total 0 al with hal | hal
    · have s2 : al * (vb : EReal) ≤ al * bh := mul_le_mul_of_nonneg_left h4 hal
      exact le_trans (le_trans s1 s2) (le_max4_2 _ _ _ _)
    · have s2 : al * (vb : EReal) ≤ al * bl := ereal_mul_le_mul_left_nonpos _ h3 hal
      exact le_trans (le_trans s1 s2) (le_max4_1 _ _ _ _)
  · subst hvb
    rw [EReal.coe_zero, mul_zero]
    rcases le_total 0 al with hal | hal
    · have hah : (0 : EReal) ≤ ah := le_trans hal (le_trans h1 h2)
      have hbh : (0 : EReal) ≤ bh := by rw [← EReal.coe_zero]; exact h4
      have : ah * 0 ≤ ah * bh := mul_le_mul_of_nonneg_left hbh hah
      rw [mul_zero] at this
      exact le_trans this (le_max4_4 _ _ _ _)
    · have hbl : bl ≤ 0 := by rw [← EReal.coe_zero]; exact h3
      have : al * 0 ≤ al * bl := ereal_mul_le_mul_left_nonpos _ hbl hal
      rw [mul_zero] at this
      exact le_trans this (le_max4_1 _ _ _ _)
  · have hvb' : (0 : EReal) ≤ (vb : EReal) := EReal.coe_nonneg.mpr hvb.le
    have s1 : (va : EReal) * vb ≤ ah * (vb : EReal) :=
      mul_le_mul_of_nonneg_right h2 hvb'
    rcases le_total 0 ah with hah | hah
    · have s2 : ah * (vb : EReal) ≤ ah * bh := mul_le_mul_of_nonneg_left h4 hah
      exact le_trans (le_trans s1 s2) (le_max4_4 _ _ _ _)
    · have s2 : ah * (vb : EReal) ≤ ah * bl := ereal_mul_le_mul_left_nonpos _ h3 hah
      exact le_trans (le_trans s1 s2) (le_max4_3 _ _ _ _)

/-- `EReal` inversion is antitone on the positives. -/
theorem ereal_inv_anti_pos {a b : EReal} (ha : 0 < a) (h : a ≤ b) :
    b⁻¹ ≤ a⁻¹ := by
  induction a with
  | h_bot => exact absurd ha (by simp)
  | h_top =>
      rw [top_le_iff.mp h]
  | h_real x =>
      have hx : 0 < x := EReal.coe_pos.mp ha
      induction b with
      | h_bot => simp at h
      | h_top =>
          rw [EReal.inv_top, ← EReal.coe_inv]
          exact EReal.coe_nonneg.mpr (inv_nonneg.mpr hx.le)
      | h_real y =>
          rw [← EReal.coe_inv, ← EReal.coe_inv, EReal.coe_le_coe_iff]
          exact inv_anti₀ hx (EReal.coe_le_coe_iff.mp h)

/-- `EReal` inversion is antitone on the negatives. -/
theorem ereal_inv_anti_neg {a b : EReal} (hb : b < 0) (h : a ≤ b) :
    b⁻¹ ≤ a⁻¹ := by
  induction b with
  | h_top => exact absurd hb (by simp)
  | h_bot =>
      rw [le_bot_iff.mp h]
  | h_real y =>
      have hy : y < 0 := EReal.coe_neg'.mp hb
      induction a with
      | h_top => simp at h
      | h_bot =>
          rw [EReal.inv_bot, ← EReal.coe_inv]
          exact EReal.coe_nonpos.mpr (inv_nonpos.mpr hy.le)
      | h_real x =>
          have hx : x < 0 := lt_of_le_of_lt (EReal.coe_le_coe_iff.mp h) hy
          rw [← EReal.coe_inv, ← EReal.coe_inv, EReal.coe_le_coe_iff,
            inv_le_inv_of_neg hy hx]
          exact EReal.coe_le_coe_iff.mp h

/-- Lower corner bound for interval division over `EReal` when the divisor
interval does not straddle zero. -/
theorem div_corner_lower (al ah bl bh : EReal) (va vb : ℝ)
    (h1 : al ≤ (va : EReal)) (h2 : (va : EReal) ≤ ah)
    (h3 : bl ≤ (vb : EReal)) (h4 : (vb : EReal) ≤ bh)
    (hstr : ¬ (bl ≤ 0 ∧ 0 ≤ bh)) :
    min (min (min (al / bl) (al / bh)) (ah / bl)) (ah / bh) ≤
      ((va / vb : ℝ) : EReal) := by
  rw [EReal.coe_div]
  rcases not_and_or.mp hstr with hbl | hbh
  · have hbl' : (0 : EReal) < bl := not_le.mp hbl
    have hvb : (0 : EReal) < (vb : EReal) := lt_of_lt_of_le hbl' h3
    have hvbr : 0 < vb := EReal.coe_pos.mp hvb
    have s1 : al / (vb : EReal) ≤ (va : EReal) / vb :=
      EReal.div_le_div_right_of_nonneg hvb.le h1
    rcases le_total 0 al with hal | hal
    · have hinv : bh⁻¹ ≤ ((vb : EReal))⁻¹ := ereal_inv_anti_pos hvb h4
      have s2 : al / bh ≤ al / (vb : EReal) := by
        rw [div_eq_mul_inv, div_eq_mul_inv]
        exact mul_le_mul_of_nonneg_left hinv hal
      exact le_trans (min4_le_2 _ _ _ _) (le_trans s2 s1)
    · have hinv : ((vb : EReal))⁻¹ ≤ bl⁻¹ := ereal_inv_anti_pos hbl' h3
      have s2 : al / bl ≤ al / (vb : EReal) := by
        rw [div_eq_mul_inv, div_eq_mul_inv]
        exact ereal_mul_le_mul_left_nonpos _ hinv hal
      exact le_trans (min4_le_1 _ _ _ _) (le_trans s2 s1)
  · have hbh' : bh < 0 := not_le.mp hbh
    have hvb : (vb : EReal) < 0 := lt_of_le_of_lt h4 hbh'
    have s1 : ah / (vb : EReal) ≤ (va : EReal) / vb :=
      EReal.div_le_div_right_of_nonpos hvb.le h2
    rcases le_total 0 ah with hah | hah
    · have hinv : bh⁻¹ ≤ ((vb : EReal))⁻¹ := ereal_inv_anti_neg hbh' h4
      have s2 : ah / bh ≤ ah / (vb : EReal) := by
        rw [div_eq_mul_inv, div_eq_mul_inv]
        exact mul_le_mul_of_nonneg_left hinv hah
      exact le_trans (min4_le_4 _ _ _ _) (le_trans s2 s1)
    · have hinv : ((vb : EReal))⁻¹ ≤ bl⁻¹ := ereal_inv_anti_neg hvb h3
      have s2 : ah / bl ≤ ah / (vb : EReal) := by
        rw [div_eq_mul_inv, div_eq_mul_inv]
        exact ereal_mul_le_mul_left_nonpos _ hinv hah
      exact le_trans (min4_le_3 _ _ _ _) (le_trans s2 s1)

/-- Upper corner bound for interval division over `EReal` when the divisor
interval does not straddle zero. -/
theorem div_corner_upper (al ah bl bh : EReal) (va vb : ℝ)
    (h1 : al ≤ (va : EReal)) (h2 : (va : EReal) ≤ ah)
    (h3 : bl ≤ (vb : EReal)) (h4 : (vb : EReal) ≤ bh)
    (hstr : ¬ (bl ≤ 0 ∧ 0 ≤ bh)) :
    ((va / vb : ℝ) : EReal) ≤
      max (max (max (al / bl) (al / bh)) (ah / bl)) (ah / bh) := by
  rw [EReal.coe_div]
  rcases not_and_or.mp hstr with hbl | hbh
  · have hbl' : (0 : EReal) < bl := not_le.mp hbl
    have hvb : (0 : EReal) < (vb : EReal) := lt_of_lt_of_le hbl' h3
    have s1 : (va : EReal) / vb ≤ ah / (vb : EReal) :=
      EReal.div_le_div_right_of_nonneg hvb.le h2
    rcases le_total 0 ah with hah | hah
    · have hinv : ((vb : EReal))⁻¹ ≤ bl⁻¹ := ereal_inv_anti_pos hbl' h3
      have s2 : ah / (vb : EReal) ≤ ah / bl := by
        rw [div_eq_mul_inv, div_eq_mul_inv]
        exact mul_le_mul_of_nonneg_left hinv hah
      exact le_trans (le_trans s1 s2) (le_max4_3 _ _ _ _)
    · have hinv : bh⁻¹ ≤ ((vb : EReal))⁻¹ := ereal_inv_anti_pos hvb h4
      have s2 : ah / (vb : EReal) ≤ ah / bh := by
        rw [div_eq_mul_inv, div_eq_mul_inv]
        exact ereal_mul_le_mul_left_nonpos _ hinv hah
      exact le_trans (le_trans s1 s2) (le_max4_4 _ _ _ _)
  · have hbh' : bh < 0 := not_le.mp hbh
    have hvb : (vb : EReal) < 0 := lt_of_le_of_lt h4 hbh'
    have s1 : (va : EReal) / vb ≤ al / (vb : EReal) :=
      EReal.div_le_div_right_of_nonpos hvb.le h1
    rcases le_total 0 al with hal | hal
    · have hinv : ((vb : EReal))⁻¹ ≤ bl⁻¹ := ereal_inv_anti_neg hvb h3
      have s2 : al / (vb : EReal) ≤ al / bl := by
        rw [div_eq_mul_inv, div_eq_mul_inv]
        exact mul_le_mul_of_nonneg_left hinv hal
      exact le_trans (le_trans s1 s2) (le_max4_1 _ _ _ _)
    · have hinv : bh⁻¹ ≤ ((vb : EReal))⁻¹ := ereal_inv_anti_neg hbh' h4
      have s2 : al / (vb : EReal) ≤ al / bh := by
        rw [div_eq_mul_inv, div_eq_mul_inv]
        exact ereal_mul_le_mul_left_nonpos _ hinv hal
      exact le_trans (le_trans s1 s2) (le_max4_2 _ _ _ _)

/-- `expE` dominates `exp` of any real below its argument. -/
theorem coe_exp_le_expE {a : EReal} {v : ℝ} (h : (v : EReal) ≤ a) :
    ((Real.exp v : ℝ) : EReal) ≤ expE a := by
  unfold expE
  split_ifs with h1 h2
  · rw [h1] at h
    simp at h
  · exact le_top
  · rw [EReal.coe_le_coe_iff]
    apply Real.exp_le_exp.mpr
    have := EReal.toReal_le_toReal h (by simp) h2
    rwa [EReal.toReal_coe] at this

/-- `expE` is dominated by `exp` of any real above its argument. -/
theorem expE_le_coe_exp {a : EReal} {v : ℝ} (h : a ≤ (v : EReal)) :
    expE a ≤ ((Real.exp v : ℝ) : EReal) := by
  unfold expE
  split_ifs with h1 h2
  · rw [← EReal.coe_zero, EReal.coe_le_coe_iff]
    exact (Real.exp_pos v).le
  · rw [h2] at h
    simp at h
  · rw [EReal.coe_le_coe_iff]
    apply Real.exp_le_exp.mpr
    have := EReal.toReal_le_toReal h h1 (by simp)
    rwa [EReal.toReal_coe] at this

/-- On the `Const/X/Y/Z/Add/Sub/Mul/Div/Neg/Exp/Min/Max` fragment the interval
interpreter is defined and encloses the value interpreter on every point of
the box. -/
theorem interval_containment (e : Expr) (X Y Z : Interval) (q : Point)
    (hs : intervalSafe e = true)
    (hx1 : X.lo ≤ (q.x : EReal)) (hx2 : (q.x : EReal) ≤ X.hi)
    (hy1 : Y.lo ≤ (q.y : EReal)) (hy2 : (q.y : EReal) ≤ Y.hi)
    (hz1 : Z.lo ≤ (q.z : EReal)) (hz2 : (q.z : EReal) ≤ Z.hi) :
    ∃ v I, eval e q = some v ∧ eval_interval e X Y Z = some I ∧
      I.lo ≤ (v : EReal) ∧ (v : EReal) ≤ I.hi := by
  induction e with
  | Const c => exact ⟨c, ⟨c, c⟩, rfl, rfl, le_refl _, le_refl _⟩
  | X => exact ⟨q.x, X, rfl, rfl, hx1, hx2⟩
  | Y => exact ⟨q.y, Y, rfl, rfl, hy1, hy2⟩
  | Z => exact ⟨q.z, Z, rfl, rfl, hz1, hz2⟩
  | Add a b iha ihb =>
      simp only [intervalSafe, Bool.and_eq_true] at hs
      obtain ⟨va, Ia, hea, hia, ha1, ha2⟩ := iha hs.1
      obtain ⟨vb, Ib, heb, hib, hb1, hb2⟩ := ihb hs.2
      refine ⟨va + vb, ⟨Ia.lo + Ib.lo, Ia.hi + Ib.hi⟩, ?_, ?_, ?_, ?_⟩
      · simp [eval, hea, heb]
      · simp [eval_interval, hia, hib]
      · rw [EReal.coe_add]
        exact add_le_add ha1 hb1
      · rw [EReal.coe_add]
        exact add_le_add ha2 hb2
  | Sub a b iha ihb =>
      simp only [intervalSafe, Bool.and_eq_true] at hs
      obtain ⟨va, Ia, hea, hia, ha1, ha2⟩ := iha hs.1
      obtain ⟨vb, Ib, heb, hib, hb1, hb2⟩ := ihb hs.2
      refine ⟨va - vb, ⟨Ia.lo - Ib.hi, Ia.hi - Ib.lo⟩, ?_, ?_, ?_, ?_⟩
      · simp [eval, hea, heb]
      · simp [eval_interval, hia, hib]
      · show Ia.lo - Ib.hi ≤ ((va - vb : ℝ) : EReal)
        rw [EReal.coe_sub, sub_eq_add_neg, sub_eq_add_neg]
        exact add_le_add ha1 (EReal.neg_le_neg_iff.mpr hb2)
      · show ((va - vb : ℝ) : EReal) ≤ Ia.hi - Ib.lo
        rw [EReal.coe_sub, sub_eq_add_neg, sub_eq_add_neg]
        exact add_le_add ha2 (EReal.neg_le_neg_iff.mpr hb1)
  | Mul a b iha ihb =>
      simp only [intervalSafe, Bool.and_eq_true] at hs
      obtain ⟨va, Ia, hea, hia, ha1, ha2⟩ := iha hs.1
      obtain ⟨vb, Ib, heb, hib, hb1, hb2⟩ := ihb hs.2
      refine ⟨va * vb,
        ⟨[Ia.lo * Ib.lo, Ia.lo * Ib.hi, Ia.hi * Ib.lo, Ia.hi * Ib.hi].foldl min ⊤,
         [Ia.lo * Ib.lo, Ia.lo * Ib.hi, Ia.hi * Ib.lo, Ia.hi * Ib.hi].foldl max ⊥⟩,
        ?_, ?_, ?_, ?_⟩
      · simp [eval, hea, heb]
      · simp [eval_interval, hia, hib]
      · rw [foldl_min4]
        exact mul_corner_lower Ia.lo Ia.hi Ib.lo Ib.hi va vb ha1 ha2 hb1 hb2
      · rw [foldl_max4]
        exact mul_corner_upper Ia.lo Ia.hi Ib.lo Ib.hi va vb ha1 ha2 hb1 hb2
  | Div a b iha ihb =>
      simp only [intervalSafe, Bool.and_eq_true] at hs
      obtain ⟨va, Ia, hea, hia, ha1, ha2⟩ := iha hs.1
      obtain ⟨vb, Ib, heb, hib, hb1, hb2⟩ := ihb hs.2
      by_cases hstr : Ib.lo ≤ 0 ∧ 0 ≤ Ib.hi
      · refine ⟨va / vb, ⟨⊥, ⊤⟩, ?_, ?_, bot_le, le_top⟩
        · simp [eval, hea, heb]
        · simp [eval_interval, hia, hib, hstr]
      · refine ⟨va / vb,
          ⟨[Ia.lo / Ib.lo, Ia.lo / Ib.hi, Ia.hi / Ib.lo, Ia.hi / Ib.hi].foldl min ⊤,
           [Ia.lo / Ib.lo, Ia.lo / Ib.hi, Ia.hi / Ib.lo, Ia.hi / Ib.hi].foldl max ⊥⟩,
          ?_, ?_, ?_, ?_⟩
        · simp [eval, hea, heb]
        · simp [eval_interval, hia, hib, hstr]
        · rw [foldl_min4]
          exact div_corner_lower Ia.lo Ia.hi Ib.lo Ib.hi va vb ha1 ha2 hb1 hb2 hstr
        · rw [foldl_max4]
          exact div_corner_upper Ia.lo Ia.hi Ib.lo Ib.hi va vb ha1 ha2 hb1 hb2 hstr
  | Neg a iha =>
      simp only [intervalSafe] at hs
      obtain ⟨va, Ia, hea, hia, ha1, ha2⟩ := iha hs
      refine ⟨-va, ⟨-Ia.hi, -Ia.lo⟩, ?_, ?_, ?_, ?_⟩
      · simp [eval, hea]
      · simp [eval_interval, hia]
      · rw [show ((-va : ℝ) : EReal) = -(va : EReal) from EReal.coe_neg va]
        exact EReal.neg_le_neg_iff.mpr ha2
      · rw [show ((-va : ℝ) : EReal) = -(va : EReal) from EReal.coe_neg va]
        exact EReal.neg_le_neg_iff.mpr ha1
  | Sin a iha => simp [intervalSafe] at hs
  | Cos a iha => simp [intervalSafe] at hs
  | Exp a iha =>
      simp only [intervalSafe] at hs
      obtain ⟨va, Ia, hea, hia, ha1, ha2⟩ := iha hs
      refine ⟨Real.exp va, ⟨expE Ia.lo, expE Ia.hi⟩, ?_, ?_, ?_, ?_⟩
      · simp [eval, hea]
      · simp [eval_interval, hia]
      · exact expE_le_coe_exp ha1
      · exact coe_exp_le_expE ha2
  | Min a b iha ihb =>
      simp only [intervalSafe, Bool.and_eq_true] at hs
      obtain ⟨va, Ia, hea, hia, ha1, ha2⟩ := iha hs.1
      obtain ⟨vb, Ib, heb, hib, hb1, hb2⟩ := ihb hs.2
      refine ⟨min va vb, ⟨min Ia.lo Ib.lo, min Ia.hi Ib.hi⟩, ?_, ?_, ?_, ?_⟩
      · simp [eval, hea, heb]
      · simp [eval_interval, hia, hib]
      · rw [coe_min']
        exact min_le_min ha1 hb1
      · rw [coe_min']
        exact min_le_min ha2 hb2
  | Max a b iha ihb =>
      simp only [intervalSafe, Bool.and_eq_true] at hs
      obtain ⟨va, Ia, hea, hia, ha1, ha2⟩ := iha hs.1
      obtain ⟨vb, Ib, heb, hib, hb1, hb2⟩ := ihb hs.2
      refine ⟨max va vb, ⟨max Ia.lo Ib.lo, max Ia.hi Ib.hi⟩, ?_, ?_, ?_, ?_⟩
      · simp [eval, hea, heb]
      · simp [eval_interval, hia, hib]
      · rw [coe_max']
        exact max_le_max ha1 hb1
      · rw [coe_max']
        exact max_le_max ha2 hb2
  | SMin a b k iha ihb => simp [intervalSafe] at hs
  | SMax a b k iha ihb => simp [intervalSafe] at hs
  | Translate a dx dy dz iha => simp [intervalSafe] at hs
  | RotateZ a deg iha => simp [intervalSafe] at hs

/-- C2 (amended): for every expression built only from `Const`, `X`, `Y`,
`Z`, `Add`, `Sub`, `Mul`, `Div`, `Neg`, `Exp`, `Min`, `Max`, every axis-aligned
box and every point of the box, the interval evaluation is defined and
encloses the point evaluation. -/
theorem c2_interval_containment_amended (e : Expr) (X Y Z : Interval)
    (qx qy qz : ℝ) (hs : intervalSafe e = true)
    (hx1 : X.lo ≤ (qx : EReal)) (hx2 : (qx : EReal) ≤ X.hi)
    (hy1 : Y.lo ≤ (qy : EReal)) (hy2 : (qy : EReal) ≤ Y.hi)
    (hz1 : Z.lo ≤ (qz : EReal)) (hz2 : (qz : EReal) ≤ Z.hi) :
    ∃ v I, eval e ⟨qx, qy, qz⟩ = some v ∧ eval_interval e X Y Z = some I ∧
      I.lo ≤ (v : EReal) ∧ (v : EReal) ≤ I.hi :=
  interval_containment e X Y Z ⟨qx, qy, qz⟩ hs hx1 hx2 hy1 hy2 hz1 hz2

/-- Witness for the amended C2 at `e = Add(X, Y)`, the unit box, the origin. -/
theorem c2_interval_containment_amended_witness :
    ∃ v I, eval (.Add Expr.X Expr.Y) ⟨0, 0, 0⟩ = some v ∧
      eval_interval (.Add Expr.X Expr.Y) ⟨0, 1⟩ ⟨0, 1⟩ ⟨0, 1⟩ = some I ∧
      I.lo ≤ (v : EReal) ∧ (v : EReal) ≤ I.hi :=
  c2_interval_containment_amended (.Add Expr.X Expr.Y) ⟨0, 1⟩ ⟨0, 1⟩ ⟨0, 1⟩ 0 0 0
    rfl (by simp) (by simp) (by simp) (by simp) (by simp) (by simp)

/-- C2 counterexample: `e = Translate(X, 10, 0, 0)` contains no `Sin`/`Cos`,
the unit box `[0,1]³` contains the origin, yet `eval` gives `-10` while the
interval interpreter (which does not shift the box through `Translate`)
returns `[0, 1]`, so the enclosure's lower bound fails. -/
theorem c2_interval_containment_counterexample :
    noSinCos (.Translate Expr.X 10 0 0) = true ∧
    eval (.Translate Expr.X 10 0 0) ⟨0, 0, 0⟩ = some (-10) ∧
    eval_interval (.Translate Expr.X 10 0 0) ⟨0, 1⟩ ⟨0, 1⟩ ⟨0, 1⟩ =
      some ⟨0, 1⟩ ∧
    ¬ ((0 : EReal) ≤ ((-10 : ℝ) : EReal)) := by
  refine ⟨rfl, ?_, rfl, ?_⟩
  · norm_num [eval]
  · rw [← EReal.coe_zero, EReal.coe_le_coe_iff]
    norm_num

end Kernel
